import Mathlib

/-!
Shallow embedding of the ScribotV2 content-generation core
(src/core/content_generator.py, src/core/page_calculator.py,
src/core/latex_template.py) and proofs about it.

Python strings are modelled as `List Char`; Python floats that carry page
counts are modelled as exact rationals (`ℚ`); Python `int()` truncation,
`str.lower()`, `str.strip()` and the regular-expression scans used by the
source are modelled by explicit character-level scanners whose left-to-right,
leftmost-match behaviour mirrors `re.sub`/`re.search`/`re.findall`.
Scanners that skip a variable number of characters take an explicit fuel
argument; every step consumes at least one character, so fuel equal to the
length of the input always suffices and the public wrappers pass exactly
that.  The LLM client (`ask_assistant`) and `random.randint` are external
collaborators and are modelled as oracles: `ask : Nat → List Char → List
Char` maps the index of the call and the prompt to the reply, and
`rand : Nat → Nat` gives the value drawn at the j-th foreign citation.
-/

namespace Scribot

/-- The opening brace character (written by code point to keep LaTeX text
apart from Lean syntax). -/
def obr : Char := '\x7b'

/-- The closing brace character. -/
def cbr : Char := '\x7d'

/-- ASCII whitespace recognised by Python's `\s` and `str.strip()`
(the embedding restricts Python's Unicode whitespace to its ASCII part). -/
def isPySpace (c : Char) : Bool :=
  c = ' ' || c = '\t' || c = '\n' || c = '\r' || c = '\x0b' || c = '\x0c'

/-- ASCII letter, the `[a-zA-Z]` class. -/
def isAsciiLetter (c : Char) : Bool :=
  ('a' ≤ c && c ≤ 'z') || ('A' ≤ c && c ≤ 'Z')

/-- ASCII digit, the `\d` class. -/
def isDigitCh (c : Char) : Bool :=
  '0' ≤ c && c ≤ '9'

/-- Python `str.lower()` restricted to the alphabets the source manipulates:
ASCII and Russian Cyrillic (А–Я and Ё). -/
def pyLowerChar (c : Char) : Char :=
  if 'A' ≤ c && c ≤ 'Z' then Char.ofNat (c.toNat + 32)
  else if 'А' ≤ c && c ≤ 'Я' then Char.ofNat (c.toNat + 32)
  else if c = 'Ё' then 'ё'
  else c

def pyLower (s : List Char) : List Char := s.map pyLowerChar

/-- `str.strip()` — drop ASCII whitespace from both ends. -/
def pyStrip (s : List Char) : List Char :=
  ((s.dropWhile isPySpace).reverse.dropWhile isPySpace).reverse

/-- `text.split('\n')` — Lean model of Python's split on a newline. -/
def splitLines : List Char → List (List Char)
  | [] => [[]]
  | c :: cs =>
    if c = '\n' then [] :: splitLines cs
    else
      match splitLines cs with
      | l :: ls => (c :: l) :: ls
      | [] => [[c]]

/-- Drop `p` from the front of `s` when `s` starts with `p` (exact match). -/
def dropStart : List Char → List Char → Option (List Char)
  | [], s => some s
  | _ :: _, [] => none
  | p :: ps, c :: cs => if c = p then dropStart ps cs else none

/-- Drop `p` from the front of `s`, comparing case-insensitively the way
`re.IGNORECASE` does (the pattern `p` is given in lower case). -/
def dropStartCI : List Char → List Char → Option (List Char)
  | [], s => some s
  | _ :: _, [] => none
  | p :: ps, c :: cs => if pyLowerChar c = p then dropStartCI ps cs else none

/-- Read characters up to the first closing brace: the `[^}]*\}` step of the
source's regexes.  Returns the brace-free content and the characters after
the closing brace, or `none` when no closing brace follows. -/
def takeToBrace : List Char → Option (List Char × List Char)
  | [] => none
  | c :: cs =>
    if c = cbr then some ([], cs)
    else
      match takeToBrace cs with
      | some (n, r) => some (c :: n, r)
      | none => none

/-- Decimal rendering of a natural number, the model of Python's `str(n)`
for the non-negative integers the source renders.  Fueled (`n ≤ fuel`
always holds at the wrapper). -/
def numCharsAux : Nat → Nat → List Char
  | 0, _ => []
  | fuel + 1, n =>
    if n < 10 then [Char.ofNat (48 + n)]
    else numCharsAux fuel (n / 10) ++ [Char.ofNat (48 + n % 10)]

def numChars (n : Nat) : List Char := numCharsAux (n + 1) n

/-- Numeric value of a run of decimal digits, the model of Python's
`int(digits)`. -/
def numVal (ds : List Char) : Nat :=
  ds.foldl (fun a c => 10 * a + (c.toNat - 48)) 0

/-! ## `validate_latex_tags` (latex_template)

Modelled from the spec: `validate_latex_tags` is imported by
`core/content_generator.py` from `core.latex_template` and exercised by
`tests/test_latex_tag_validation.py`, but its definition is absent from the
sources in this dump.  Per the spec it "scans for `\begin{X}`/`\end{X}` pairs
… using a stack; reports first mismatch kind — closing tag without matching
open, wrong closing tag (top-of-stack name ≠ closing name), or unclosed tags
remain at end of scan (lists all still-open names)". -/

/-- An environment tag occurrence found in the content, in scan order. -/
inductive LTag where
  | beginT (name : List Char)
  | endT (name : List Char)
deriving DecidableEq

/-- Modelled from the spec: the scan for `\begin{X}` / `\end{X}` occurrences,
left to right.  `fuel` decreases every step; each step consumes at least one
character, so `fuel = length` suffices. -/
def scanTagsAux : Nat → List Char → List LTag
  | 0, _ => []
  | _ + 1, [] => []
  | fuel + 1, c :: cs =>
    if c = '\\' then
      match dropStart ("begin".toList ++ [obr]) cs with
      | some r =>
        match takeToBrace r with
        | some (n, r2) => LTag.beginT n :: scanTagsAux fuel r2
        | none => scanTagsAux fuel cs
      | none =>
        match dropStart ("end".toList ++ [obr]) cs with
        | some r =>
          match takeToBrace r with
          | some (n, r2) => LTag.endT n :: scanTagsAux fuel r2
          | none => scanTagsAux fuel cs
        | none => scanTagsAux fuel cs
    else scanTagsAux fuel cs

def scanTags (content : List Char) : List LTag :=
  scanTagsAux content.length content

/-- Modelled from the spec: error text for a closing tag found with an empty
stack ("closing tag without matching open"). -/
def msgCloseNoOpen (n : List Char) : List Char :=
  "closing tag without matching open: ".toList ++ n

/-- Modelled from the spec: error text for a wrong closing tag
("top-of-stack name ≠ closing name"); mentions both names. -/
def msgWrongClose (top n : List Char) : List Char :=
  "wrong closing tag: expected ".toList ++ top ++ ", got ".toList ++ n

/-- Comma-separated list of the still-open names. -/
def joinCommaSep : List (List Char) → List Char
  | [] => []
  | [n] => n
  | n :: ns => n ++ ", ".toList ++ joinCommaSep ns

/-- Modelled from the spec: error text listing all still-open names at end of
scan ("unclosed tags remain"). -/
def msgUnclosed (stack : List (List Char)) : List Char :=
  "unclosed tags remain: ".toList ++ joinCommaSep stack

/-- Modelled from the spec: the stack pass over the scanned tags, reporting
the first mismatch. -/
def checkTags : List LTag → List (List Char) → Bool × List Char
  | [], [] => (true, [])
  | [], stack => (false, msgUnclosed stack)
  | LTag.beginT n :: ts, stack => checkTags ts (n :: stack)
  | LTag.endT n :: _, [] => (false, msgCloseNoOpen n)
  | LTag.endT n :: ts, top :: rest =>
    if n = top then checkTags ts rest else (false, msgWrongClose top n)

/-- Modelled from the spec: `validate_latex_tags(content) -> (bool,
errorMessage)`. -/
def validate_latex_tags (content : List Char) : Bool × List Char :=
  checkTags (scanTags content) []

/-- Properly nested, balanced environment-tag sequences (the Dyck language
over `\begin{X}`/`\end{X}` with matching names). -/
inductive BalancedTags : List LTag → Prop
  | nil : BalancedTags []
  | wrap (n : List Char) {ts : List LTag} :
      BalancedTags ts → BalancedTags (LTag.beginT n :: ts ++ [LTag.endT n])
  | append {a b : List LTag} :
      BalancedTags a → BalancedTags b → BalancedTags (a ++ b)

/-! ## Citation repair (content_generator)

Embedding of `_extract_source_count_from_bibliography`,
`_replace_citations_in_content` and `fix_citations_in_work_content`
(src/core/content_generator.py lines 724–834).  The regex
`\\cite\{(?!source\d+\})[^}]+\}` matches a `\cite` token whose brace content
is non-empty and is not `source` followed by one or more digits; `re.sub`
scans left to right, replacing non-overlapping matches and advancing one
character where no match starts. -/

/-- The negative lookahead `(?=source\d+\})` test on a key already cut at its
closing brace: `source` followed by one or more digits and nothing else. -/
def isSourceKey (key : List Char) : Bool :=
  match dropStart "source".toList key with
  | some r => !r.isEmpty && r.all isDigitCh
  | none => false

/-- One attempted match of `\\cite\{(?!source\d+\})[^}]+\}` at the head of
`s`: the foreign key and the characters after the token's closing brace. -/
def citeMatch (s : List Char) : Option (List Char × List Char) :=
  match dropStart ("\\cite".toList ++ [obr]) s with
  | some r =>
    match takeToBrace r with
    | some (key, rest) =>
      if !key.isEmpty && !isSourceKey key then some (key, rest) else none
    | none => none
  | none => none

/-- The literal text of a `\cite` token with the given key. -/
def citeTok (key : List Char) : List Char :=
  "\\cite".toList ++ [obr] ++ key ++ [cbr]

/-- The replacement text `\cite{source<num>}` built by `replace_citation`. -/
def citeSrcTok (num : Nat) : List Char :=
  citeTok ("source".toList ++ numChars num)

/-- Scanner for `\bibitem\{source(\d+)\}` occurrences: the numbers found, in
scan order (`re.findall` advances past each match, one character otherwise). -/
def bibitemNumsAux : Nat → List Char → List Nat
  | 0, _ => []
  | fuel + 1, s =>
    match dropStart ("\\bibitem".toList ++ [obr] ++ "source".toList) s with
    | some r =>
      let ds := r.takeWhile isDigitCh
      match ds, r.drop ds.length with
      | _ :: _, c :: rest =>
        if c = cbr then numVal ds :: bibitemNumsAux fuel rest
        else
          match s with
          | [] => []
          | _ :: cs => bibitemNumsAux fuel cs
      | _, _ =>
        match s with
        | [] => []
        | _ :: cs => bibitemNumsAux fuel cs
    | none =>
      match s with
      | [] => []
      | _ :: cs => bibitemNumsAux fuel cs

/-- `_extract_source_count_from_bibliography`: the maximum `N` over all
`\bibitem{sourceN}` occurrences, `0` when there are none. -/
def extract_source_count_from_bibliography (bib : List Char) : Nat :=
  (bibitemNumsAux (bib.length + 1) bib).foldr max 0

/-- Decomposition of a text along its foreign `\cite` matches: the text
before the first match, then for each match its key and the text that
follows it up to the next match. -/
def splitForeign : Nat → List Char → List Char × List (List Char × List Char)
  | 0, s => (s, [])
  | _ + 1, [] => ([], [])
  | fuel + 1, c :: cs =>
    match citeMatch (c :: cs) with
    | some (key, rest) =>
      ([], (key, (splitForeign fuel rest).1) :: (splitForeign fuel rest).2)
    | none =>
      (c :: (splitForeign fuel cs).1, (splitForeign fuel cs).2)

/-- The `re.sub` of the source-count-zero branch: every foreign `\cite`
token deleted. -/
def deleteForeignCitesAux : Nat → List Char → List Char
  | 0, s => s
  | _ + 1, [] => []
  | fuel + 1, c :: cs =>
    match citeMatch (c :: cs) with
    | some (_, rest) => deleteForeignCitesAux fuel rest
    | none => c :: deleteForeignCitesAux fuel cs

def deleteForeignCites (content : List Char) : List Char :=
  deleteForeignCitesAux content.length content

/-- The `re.findall(cite_pattern, content)` call: the foreign keys, in scan
order. -/
def findForeignCitesAux : Nat → List Char → List (List Char)
  | 0, _ => []
  | _ + 1, [] => []
  | fuel + 1, c :: cs =>
    match citeMatch (c :: cs) with
    | some (key, rest) => key :: findForeignCitesAux fuel rest
    | none => findForeignCitesAux fuel cs

def findForeignCites (content : List Char) : List (List Char) :=
  findForeignCitesAux content.length content

/-- The `re.sub(cite_pattern, replace_citation, content)` call.  `j` counts
the foreign matches already replaced: while `j < count` the token becomes
`\cite{source(j+1)}` (the source's `sequential_index`), afterwards it becomes
`\cite{source(rand j)}`, `rand` modelling `random.randint(1, source_count)`
at the j-th foreign citation. -/
def replaceForeignCitesAux (rand : Nat → Nat) (count : Nat) :
    Nat → Nat → List Char → List Char
  | 0, _, s => s
  | _ + 1, _, [] => []
  | fuel + 1, j, c :: cs =>
    match citeMatch (c :: cs) with
    | some (_, rest) =>
      let num := if j < count then j + 1 else rand j
      citeSrcTok num ++ replaceForeignCitesAux rand count fuel (j + 1) rest
    | none => c :: replaceForeignCitesAux rand count fuel j cs

def replaceForeignCites (rand : Nat → Nat) (count : Nat)
    (content : List Char) : List Char :=
  replaceForeignCitesAux rand count content.length 0 content

/-- `_replace_citations_in_content(content, bibliography_content)`. -/
def replace_citations_in_content (rand : Nat → Nat)
    (content bib : List Char) : List Char :=
  let source_count := extract_source_count_from_bibliography bib
  if source_count = 0 then deleteForeignCites content
  else if findForeignCites content = [] then content
  else replaceForeignCites rand source_count content

/-! Locating the bibliography section (`fix_citations_in_work_content`).
The three patterns `(.*?)(\\section\{[^}]*(?:Список|список)[^}]*(?:литературы
|источников|использованных)[^}]*\}.*)`, its `\section*` variant and its
`\chapter` variant are tried in order with `re.DOTALL | re.IGNORECASE`; the
lazy `(.*?)` makes the split happen at the leftmost heading the pattern
accepts. -/

/-- The suffix of `s` after the first occurrence of `pat`, if any. -/
def afterFirst (pat : List Char) : Nat → List Char → Option (List Char)
  | 0, _ => none
  | fuel + 1, s =>
    match dropStart pat s with
    | some r => some r
    | none =>
      match s with
      | [] => none
      | _ :: cs => afterFirst pat fuel cs

/-- Substring test (Python `pat in s`). -/
def containsSub (pat s : List Char) : Bool :=
  (afterFirst pat (s.length + 1) s).isSome

/-- The brace-content test `[^}]*(?:список)[^}]*(?:литературы|источников|
использованных)` under `IGNORECASE`: after some occurrence of `список` one
of the three genitive keywords follows. -/
def bibHeadingBraceOk (inner : List Char) : Bool :=
  let lc := pyLower inner
  match afterFirst "список".toList (lc.length + 1) lc with
  | some rest =>
    containsSub "литературы".toList rest
      || containsSub "источников".toList rest
      || containsSub "использованных".toList rest
  | none => false

/-- Does the heading pattern for section command `cmd` (given lower-case,
ending in an opening brace) match at the head of `s`? -/
def bibHeadingAt (cmd : List Char) (s : List Char) : Bool :=
  match dropStartCI cmd s with
  | some r =>
    match takeToBrace r with
    | some (inner, _) => bibHeadingBraceOk inner
    | none => false
  | none => false

/-- Leftmost split of the document at a heading matching `cmd`:
`(text before the heading, heading through end of document)`. -/
def findHeadingAux (cmd : List Char) :
    Nat → List Char → List Char → Option (List Char × List Char)
  | 0, _, _ => none
  | fuel + 1, acc, s =>
    if bibHeadingAt cmd s then some (acc.reverse, s)
    else
      match s with
      | [] => none
      | c :: cs => findHeadingAux cmd fuel (c :: acc) cs

def findHeading (cmd : List Char) (full : List Char) :
    Option (List Char × List Char) :=
  findHeadingAux cmd (full.length + 1) [] full

/-- The pattern loop of `fix_citations_in_work_content`: split the document
into main content and bibliography at the first heading the first matching
pattern accepts. -/
def find_bibliography (full : List Char) : Option (List Char × List Char) :=
  match findHeading ("\\section".toList ++ [obr]) full with
  | some mb => some mb
  | none =>
    match findHeading ("\\section*".toList ++ [obr]) full with
    | some mb => some mb
    | none => findHeading ("\\chapter".toList ++ [obr]) full

/-- `fix_citations_in_work_content(full_content)`. -/
def fix_citations_in_work_content (rand : Nat → Nat)
    (full : List Char) : List Char :=
  match find_bibliography full with
  | some (main, bib) => replace_citations_in_content rand main bib ++ bib
  | none => full

/-! ## Page calculator (page_calculator)

Embedding of `remove_latex_commands`, `count_pages_in_text`,
`calculate_content_pages_for_target`, `parse_work_plan`,
`calculate_pages_per_chapter` and `should_generate_subsections`
(src/core/page_calculator.py).  Page counts are exact rationals. -/

def SYMBOLS_IN_PAGE : ℚ := 1250
def TITLE_PAGE_PAGES : ℚ := 1
def TOC_PAGES_BASE : ℚ := 1 / 2
def TOC_PAGES_PER_CHAPTER : ℚ := 1 / 20

/-- One attempted match of `\\[a-zA-Z]+\{[^}]*\}` at the head of `s`:
the characters after the match. -/
def cmdBraceMatch (s : List Char) : Option (List Char) :=
  match s with
  | '\\' :: cs =>
    let ls := cs.takeWhile isAsciiLetter
    if ls.isEmpty then none
    else
      match cs.drop ls.length with
      | c :: r => if c = obr then (takeToBrace r).map Prod.snd else none
      | [] => none
  | _ => none

def subCmdBraceAux : Nat → List Char → List Char
  | 0, s => s
  | _ + 1, [] => []
  | fuel + 1, c :: cs =>
    match cmdBraceMatch (c :: cs) with
    | some rest => subCmdBraceAux fuel rest
    | none => c :: subCmdBraceAux fuel cs

/-- One attempted match of `\\[a-zA-Z]+\*?\{[^}]*\}` at the head of `s`. -/
def cmdStarBraceMatch (s : List Char) : Option (List Char) :=
  match s with
  | '\\' :: cs =>
    let ls := cs.takeWhile isAsciiLetter
    if ls.isEmpty then none
    else
      match cs.drop ls.length with
      | '*' :: c :: r => if c = obr then (takeToBrace r).map Prod.snd else none
      | c :: r => if c = obr then (takeToBrace r).map Prod.snd else none
      | [] => none
  | _ => none

def subCmdStarBraceAux : Nat → List Char → List Char
  | 0, s => s
  | _ + 1, [] => []
  | fuel + 1, c :: cs =>
    match cmdStarBraceMatch (c :: cs) with
    | some rest => subCmdStarBraceAux fuel rest
    | none => c :: subCmdStarBraceAux fuel cs

/-- The `\\[a-zA-Z]+` → `''` pass. -/
def subCmdAux : Nat → List Char → List Char
  | 0, s => s
  | _ + 1, [] => []
  | fuel + 1, c :: cs =>
    if c = '\\' then
      let ls := cs.takeWhile isAsciiLetter
      if ls.isEmpty then c :: subCmdAux fuel cs
      else subCmdAux fuel (cs.drop ls.length)
    else c :: subCmdAux fuel cs

/-- The `\{[^}]*\}` → `''` pass. -/
def subBraceAux : Nat → List Char → List Char
  | 0, s => s
  | _ + 1, [] => []
  | fuel + 1, c :: cs =>
    if c = obr then
      match takeToBrace cs with
      | some (_, rest) => subBraceAux fuel rest
      | none => c :: subBraceAux fuel cs
    else c :: subBraceAux fuel cs

/-- The `\\\\` → `'\n'` pass (`str.replace` scans left to right). -/
def subDoubleBackslash : List Char → List Char
  | '\\' :: '\\' :: cs => '\n' :: subDoubleBackslash cs
  | c :: cs => c :: subDoubleBackslash cs
  | [] => []

/-- Greedy-with-backtracking tail of `\n\s*\n`: the characters after the
last newline inside the maximal whitespace run at the head of `s`. -/
def lastNl : List Char → Option (List Char)
  | [] => none
  | c :: cs =>
    if isPySpace c then
      match lastNl cs with
      | some r => some r
      | none => if c = '\n' then some cs else none
    else none

/-- The `\n\s*\n` → `'\n'` pass. -/
def subBlankLinesAux : Nat → List Char → List Char
  | 0, s => s
  | _ + 1, [] => []
  | fuel + 1, c :: cs =>
    if c = '\n' then
      match lastNl cs with
      | some rest => '\n' :: subBlankLinesAux fuel rest
      | none => c :: subBlankLinesAux fuel cs
    else c :: subBlankLinesAux fuel cs

/-- The `\s+` → `' '` pass. -/
def subSpacesAux : Nat → List Char → List Char
  | 0, s => s
  | _ + 1, [] => []
  | fuel + 1, c :: cs =>
    if isPySpace c then ' ' :: subSpacesAux fuel (cs.dropWhile isPySpace)
    else c :: subSpacesAux fuel cs

/-- `remove_latex_commands(text)`: the five substitution passes, the
blank-line collapse, the whitespace collapse and the final strip, in source
order. -/
def remove_latex_commands (text : List Char) : List Char :=
  let t1 := subCmdBraceAux text.length text
  let t2 := subCmdStarBraceAux t1.length t1
  let t3 := subCmdAux t2.length t2
  let t4 := subBraceAux t3.length t3
  let t5 := subDoubleBackslash t4
  let t6 := subBlankLinesAux t5.length t5
  let t7 := subSpacesAux t6.length t6
  pyStrip t7

/-- `count_pages_in_text(text)`. -/
def count_pages_in_text (text : List Char) : ℚ :=
  ((remove_latex_commands text).length : ℚ) / SYMBOLS_IN_PAGE

/-- `calculate_content_pages_for_target(total_target_pages, num_chapters)`. -/
def calculate_content_pages_for_target (total : ℤ) (numChapters : ℕ) : ℚ :=
  let toc_pages := TOC_PAGES_BASE + (numChapters : ℚ) * TOC_PAGES_PER_CHAPTER
  let service_pages := TITLE_PAGE_PAGES + toc_pages
  max 1 ((total : ℚ) - service_pages)

/-- A chapter parsed from the plan: the `{'title': …, 'subsections': […]}`
dict of the source. -/
structure Chapter where
  title : List Char
  subsections : List (List Char)
deriving DecidableEq

/-- The `\s*(.+)$` tail shared by the line patterns: drop the whitespace
prefix greedily, backtracking just enough to leave `(.+)` one character. -/
def restGroup (rest : List Char) : Option (List Char) :=
  if rest.isEmpty then none
  else some (rest.drop (min (rest.takeWhile isPySpace).length (rest.length - 1)))

/-- `^(\d+)\.\s*(.+)$`, group 2. -/
def chapterP1 (line : List Char) : Option (List Char) :=
  let ds := line.takeWhile isDigitCh
  if ds.isEmpty then none
  else
    match line.drop ds.length with
    | '.' :: rest => restGroup rest
    | _ => none

/-- `^Глава\s*(\d+)\.?\s*(.+)$` under `IGNORECASE`, group 2. -/
def chapterP2 (line : List Char) : Option (List Char) :=
  match dropStartCI "глава".toList line with
  | some r =>
    let wsr := r.dropWhile isPySpace
    let ds := wsr.takeWhile isDigitCh
    if ds.isEmpty then none
    else
      match wsr.drop ds.length with
      | '.' :: r3 => if r3.isEmpty then restGroup ('.' :: r3) else restGroup r3
      | r2 => restGroup r2
  | none => none

/-- `^(\d+)\)\s*(.+)$`, group 2. -/
def chapterP3 (line : List Char) : Option (List Char) :=
  let ds := line.takeWhile isDigitCh
  if ds.isEmpty then none
  else
    match line.drop ds.length with
    | ')' :: rest => restGroup rest
    | _ => none

/-- The `[IVX]` class under `IGNORECASE`. -/
def isRomanCI (c : Char) : Bool :=
  pyLowerChar c = 'i' || pyLowerChar c = 'v' || pyLowerChar c = 'x'

/-- `^[IVX]+\.\s*(.+)$` under `IGNORECASE`, group 1. -/
def chapterP4 (line : List Char) : Option (List Char) :=
  let rs := line.takeWhile isRomanCI
  if rs.isEmpty then none
  else
    match line.drop rs.length with
    | '.' :: rest => restGroup rest
    | _ => none

/-- `_parse_chapter_title(line)`: the patterns in source order, the matched
title group stripped.  (The source's fallback branch for a pattern without a
bound title group is unreachable: every pattern binds its group.)  A `some
[]` result models Python's empty-string return, which the caller treats as
falsy. -/
def parse_chapter_title (line : List Char) : Option (List Char) :=
  (chapterP1 line <|> chapterP2 line <|> chapterP3 line <|> chapterP4 line).map
    pyStrip

/-- `^(\d+\.\d+)\s*(.+)$`, group 2. -/
def subsectionP1 (line : List Char) : Option (List Char) :=
  let ds := line.takeWhile isDigitCh
  if ds.isEmpty then none
  else
    match line.drop ds.length with
    | '.' :: r =>
      let ds2 := r.takeWhile isDigitCh
      if ds2.isEmpty then none else restGroup (r.drop ds2.length)
    | _ => none

/-- `^-\s*(.+)$`, group 1. -/
def subsectionP2 (line : List Char) : Option (List Char) :=
  match line with
  | '-' :: rest => restGroup rest
  | _ => none

/-- `^\*\s*(.+)$`, group 1. -/
def subsectionP3 (line : List Char) : Option (List Char) :=
  match line with
  | '*' :: rest => restGroup rest
  | _ => none

/-- `_parse_subsection_title(line)`: first matching pattern; an
empty-after-strip title yields `None`. -/
def parse_subsection_title (line : List Char) : Option (List Char) :=
  match subsectionP1 line <|> subsectionP2 line <|> subsectionP3 line with
  | some g => let t := pyStrip g; if t.isEmpty then none else some t
  | none => none

/-- The line loop of `parse_work_plan`: `cur` is the chapter being built,
`acc` the chapters already closed. -/
def parsePlanAux : List (List Char) → Option Chapter → List Chapter → List Chapter
  | [], cur, acc => acc ++ cur.toList
  | line :: ls, cur, acc =>
    let l := pyStrip line
    if l.isEmpty then parsePlanAux ls cur acc
    else
      match parse_chapter_title l with
      | some t =>
        if !t.isEmpty then parsePlanAux ls (some ⟨t, []⟩) (acc ++ cur.toList)
        else
          match cur with
          | some ch =>
            match parse_subsection_title l with
            | some st => parsePlanAux ls (some ⟨ch.title, ch.subsections ++ [st]⟩) acc
            | none => parsePlanAux ls cur acc
          | none => parsePlanAux ls cur acc
      | none =>
        match cur with
        | some ch =>
          match parse_subsection_title l with
          | some st => parsePlanAux ls (some ⟨ch.title, ch.subsections ++ [st]⟩) acc
          | none => parsePlanAux ls cur acc
        | none => parsePlanAux ls cur acc

/-- `parse_work_plan(plan_text)`. -/
def parse_work_plan (planText : List Char) : List Chapter :=
  parsePlanAux (splitLines planText) none []

/-- Python-dict model: association list in insertion order, assignment
overwriting the first entry with the key, else appending. -/
def dictSet : List (List Char × ℚ) → List Char → ℚ → List (List Char × ℚ)
  | [], k, v => [(k, v)]
  | p :: d, k, v => if p.1 = k then (k, v) :: d else p :: dictSet d k v

def dictGet : List (List Char × ℚ) → List Char → Option ℚ
  | [], _ => none
  | p :: d, k => if p.1 = k then some p.2 else dictGet d k

/-- The `special_chapters` dict, in source (iteration) order. -/
def specialChapters : List (List Char × ℚ) :=
  [("введение".toList, 3 / 2), ("заключение".toList, 3 / 2),
   ("список".toList, 1 / 2), ("библиография".toList, 1 / 2)]

/-- The inner loop of `calculate_pages_per_chapter`: the first special key
contained in the lower-cased title, if any, with its fixed allocation. -/
def findSpecial (titleLower : List Char) : Option ℚ :=
  (specialChapters.find? (fun p => containsSub p.1 titleLower)).map Prod.snd

/-- The body of the first loop of `calculate_pages_per_chapter`: the
accumulator carries the dict, the special-page sum and the main-chapter
list. -/
def ppcStep (st : List (List Char × ℚ) × ℚ × List Chapter) (ch : Chapter) :
    List (List Char × ℚ) × ℚ × List Chapter :=
  match findSpecial (pyLower ch.title) with
  | some p => (dictSet st.1 ch.title p, st.2.1 + p, st.2.2)
  | none => (st.1, st.2.1, st.2.2 ++ [ch])

/-- The body of the second loop: assign `per` pages to a main chapter. -/
def ppcAssign (per : ℚ) (d : List (List Char × ℚ)) (ch : Chapter) :
    List (List Char × ℚ) :=
  dictSet d ch.title per

/-- `calculate_pages_per_chapter(total_pages, chapters)`.  (The source
annotates `total_pages: int` but is called with a float; the embedding takes
a rational.) -/
def calculate_pages_per_chapter (totalPages : ℚ) (chapters : List Chapter) :
    List (List Char × ℚ) :=
  if chapters.isEmpty then []
  else
    let st := chapters.foldl ppcStep ([], 0, [])
    let remaining_pages := totalPages - st.2.1
    let main_chapters := st.2.2
    if !main_chapters.isEmpty ∧ remaining_pages > 0 then
      let per := remaining_pages / (main_chapters.length : ℚ)
      main_chapters.foldl (ppcAssign per) st.1
    else st.1

/-- `should_generate_subsections(current_pages, target_pages, threshold)`
(the source's default threshold is 0.7 = 7/10; call sites pass it
explicitly here). -/
def should_generate_subsections (current target threshold : ℚ) : Bool :=
  decide (current < target * threshold)

/-! ## `smart_escape_dollars` (latex_template)

Embedding of `smart_escape_dollars` (src/core/latex_template.py lines
126–199): math spans are replaced by placholder markers, the remaining
dollars are de-double-escaped and escaped, and the markers are restored by
`str.replace`. -/

/-- The placeholder `__MATH_MARKER_{i}__`. -/
def mkMarker (i : Nat) : List Char :=
  "__MATH_MARKER_".toList ++ numChars i ++ "__".toList

/-- Split `s` at the first occurrence of `pat`: the characters before it and
the characters after it. -/
def splitAtFirst (pat : List Char) : Nat → List Char → Option (List Char × List Char)
  | 0, _ => none
  | fuel + 1, s =>
    match dropStart pat s with
    | some r => some ([], r)
    | none =>
      match s with
      | [] => none
      | c :: cs => (splitAtFirst pat fuel cs).map (fun p => (c :: p.1, p.2))

/-- One marker-replacement pass for a delimited span (`\$\$.*?\$\$`,
`\\\(.*?\\\)` or `\\\[.*?\\\]`, all lazy under `DOTALL`): on a match the
whole span becomes a fresh marker; otherwise the scan advances one
character.  Returns the rewritten text, the next marker index and the
accumulated `(marker, original)` pairs. -/
def subDelimAux (opn cls : List Char) :
    Nat → Nat → List (List Char × List Char) → List Char →
      List Char × Nat × List (List Char × List Char)
  | 0, k, ms, s => (s, k, ms)
  | _ + 1, k, ms, [] => ([], k, ms)
  | fuel + 1, k, ms, c :: cs =>
    match dropStart opn (c :: cs) with
    | some r =>
      match splitAtFirst cls (r.length + 1) r with
      | some (content, rest) =>
        let marker := mkMarker k
        let original := opn ++ content ++ cls
        let (out, k2, ms2) := subDelimAux opn cls fuel (k + 1) (ms ++ [(marker, original)]) rest
        (marker ++ out, k2, ms2)
      | none =>
        let (out, k2, ms2) := subDelimAux opn cls fuel k ms cs
        (c :: out, k2, ms2)
    | none =>
      let (out, k2, ms2) := subDelimAux opn cls fuel k ms cs
      (c :: out, k2, ms2)

/-- The math-content class `[a-zA-Z_^{}\(\)\[\]+\-*/=<>]`. -/
def isMathChar (c : Char) : Bool :=
  isAsciiLetter c || c = '_' || c = '^' || c = obr || c = cbr || c = '(' ||
    c = ')' || c = '[' || c = ']' || c = '+' || c = '-' || c = '*' ||
    c = '/' || c = '=' || c = '<' || c = '>'

/-- The just-a-number class `[\d\s.,]`. -/
def isNumClassChar (c : Char) : Bool :=
  isDigitCh c || isPySpace c || c = '.' || c = ','

/-- `replace_inline_math_if_valid`'s decision on the span content: has math
characters and is not purely a number after stripping. -/
def inlineIsMath (content : List Char) : Bool :=
  let has_math_chars := content.any isMathChar
  let stripped := pyStrip content
  let is_just_number := !stripped.isEmpty && stripped.all isNumClassChar
  has_math_chars && !is_just_number

/-- The inline-math pass `(?<!\$)\$(?!\$)((?:(?!\$).)*?)\$(?!\$)` with its
content check: `prev` is the character just before the scan position (the
lookbehind inspects the original text).  A span whose content fails the
check is left in place but the scan continues after it, exactly as `re.sub`
does when the replacement function returns the match unchanged. -/
def subInlineAux :
    Nat → Option Char → Nat → List (List Char × List Char) → List Char →
      List Char × Nat × List (List Char × List Char)
  | 0, _, k, ms, s => (s, k, ms)
  | _ + 1, _, k, ms, [] => ([], k, ms)
  | fuel + 1, prev, k, ms, c :: cs =>
    if c = '$' ∧ prev ≠ some '$' ∧ cs.head? ≠ some '$' then
      match splitAtFirst ['$'] (cs.length + 1) cs with
      | some (content, rest) =>
        if rest.head? = some '$' then
          let (out, k2, ms2) := subInlineAux fuel (some c) k ms cs
          (c :: out, k2, ms2)
        else if inlineIsMath content then
          let marker := mkMarker k
          let original := '$' :: content ++ ['$']
          let (out, k2, ms2) := subInlineAux fuel (some '$') (k + 1) (ms ++ [(marker, original)]) rest
          (marker ++ out, k2, ms2)
        else
          let (out, k2, ms2) := subInlineAux fuel (some '$') k ms rest
          ('$' :: content ++ ['$'] ++ out, k2, ms2)
      | none =>
        let (out, k2, ms2) := subInlineAux fuel (some c) k ms cs
        (c :: out, k2, ms2)
    else
      let (out, k2, ms2) := subInlineAux fuel (some c) k ms cs
      (c :: out, k2, ms2)

/-- The `text.replace('\\\\$', '\\$')` normalisation (two backslashes before
a dollar become one), scanning left to right without overlap. -/
def normDoubleEscapedDollar : List Char → List Char
  | '\\' :: '\\' :: '$' :: cs => '\\' :: '$' :: normDoubleEscapedDollar cs
  | c :: cs => c :: normDoubleEscapedDollar cs
  | [] => []

/-- The `(?<!\\)\$` → `\$` escape pass; `prev` is the previous original
character. -/
def escapeDollarsAux : Option Char → List Char → List Char
  | _, [] => []
  | prev, c :: cs =>
    if c = '$' ∧ prev ≠ some '\\' then
      '\\' :: '$' :: escapeDollarsAux (some '$') cs
    else c :: escapeDollarsAux (some c) cs

/-- `str.replace(pat, repl)`: all non-overlapping occurrences, left to
right, the scan continuing after each inserted replacement. -/
def replaceAllAux (pat repl : List Char) : Nat → List Char → List Char
  | 0, s => s
  | _ + 1, [] => []
  | fuel + 1, c :: cs =>
    match dropStart pat (c :: cs) with
    | some r => repl ++ replaceAllAux pat repl fuel r
    | none => c :: replaceAllAux pat repl fuel cs

/-- `smart_escape_dollars(text)`. -/
def smart_escape_dollars (text : List Char) : List Char :=
  let r1 := subDelimAux "$$".toList "$$".toList text.length 0 [] text
  let r2 := subDelimAux "\\(".toList "\\)".toList r1.1.length r1.2.1 r1.2.2 r1.1
  let r3 := subDelimAux "\\[".toList "\\]".toList r2.1.length r2.2.1 r2.2.2 r2.1
  let r4 := subInlineAux r3.1.length none r3.2.1 r3.2.2 r3.1
  let t5 := normDoubleEscapedDollar r4.1
  let t6 := escapeDollarsAux none t5
  r4.2.2.foldl (fun t pm => replaceAllAux pm.1 pm.2 t.length t) t6

/-! ## `fix_section_commands` (content_generator) -/

/-- Match of `\\section\{([^}]+)\}` at the head of `s`: the non-empty title
group. -/
def sectionTitleAt (s : List Char) : Option (List Char) :=
  match dropStart ("\\section".toList ++ [obr]) s with
  | some r =>
    match takeToBrace r with
    | some (inner, _) => if inner.isEmpty then none else some inner
    | none => none
  | none => none

/-- `re.search(r'^\\section\{([^}]+)\}', s, re.MULTILINE)`: the title of the
first line starting with a `\section` command.  `atStart` is true at the
beginning of the text and right after each newline. -/
def findSectionTitleAux : Nat → Bool → List Char → Option (List Char)
  | 0, _, _ => none
  | fuel + 1, atStart, s =>
    match if atStart then sectionTitleAt s else none with
    | some t => some t
    | none =>
      match s with
      | [] => none
      | c :: cs => findSectionTitleAux fuel (c = '\n') cs

def findSectionTitle (s : List Char) : Option (List Char) :=
  findSectionTitleAux (s.length + 1) true s

/-- `re.sub(r'^\\section\{([^}]+)\}', '\\subsection{<title>}', content,
count=1)` without `re.MULTILINE`: only a command at the very start of the
text is rewritten, and the spliced title is the one found by the search. -/
def subStartSection (content title : List Char) : List Char :=
  match dropStart ("\\section".toList ++ [obr]) content with
  | some r =>
    match takeToBrace r with
    | some (inner, rest) =>
      if inner.isEmpty then content
      else "\\subsection".toList ++ [obr] ++ title ++ [cbr] ++ rest
    | none => content
  | none => content

/-- Match of `\\(sub)?section\{` at the head of `s`. -/
def isSecCmdStart (s : List Char) : Bool :=
  (dropStart ("\\section".toList ++ [obr]) s).isSome
    || (dropStart ("\\subsection".toList ++ [obr]) s).isSome

/-- `re.search(r'^\\(sub)?section\{', s, re.MULTILINE)`. -/
def hasSecCmdLineAux : Nat → Bool → List Char → Bool
  | 0, _, _ => false
  | fuel + 1, atStart, s =>
    if atStart && isSecCmdStart s then true
    else
      match s with
      | [] => false
      | c :: cs => hasSecCmdLineAux fuel (c = '\n') cs

def hasSecCmdLine (s : List Char) : Bool :=
  hasSecCmdLineAux (s.length + 1) true s

/-- `fix_section_commands(content, expected_subsection_title)`. -/
def fix_section_commands (content expected : List Char) : List Char :=
  let c1 := pyStrip content
  let c2 :=
    match dropStart "\\newpage".toList c1 with
    | some r => r.dropWhile isPySpace
    | none => c1
  let c3 :=
    match findSectionTitle (pyStrip c2) with
    | some title => subStartSection c2 title
    | none => c2
  if hasSecCmdLine (pyStrip c3) then c3
  else "\\subsection".toList ++ [obr] ++ expected ++ [cbr] ++ "\n\n".toList ++ c3

/-! ## Content generator orchestration (content_generator)

The LLM client `ask_assistant(order_id, prompt, model_name)` keeps a
per-order conversation history, so successive calls with the same prompt may
answer differently: it is modelled as an oracle `ask : Nat → List Char →
List Char` taking the index of the call within the order's generation run
and the prompt.  Every embedded generation function threads the call
counter.  Progress callbacks, the bot handle and the admin-warning side
channel carry no return value and are dropped. -/

/-- Python `int()` truncation toward zero on a rational. -/
def pyInt (q : ℚ) : ℤ := q.num.tdiv (q.den : ℤ)

/-- Python `str()` of an integer. -/
def intStr (z : ℤ) : List Char :=
  if z < 0 then '-' :: numChars z.natAbs else numChars z.natAbs

/-- The prompt of the `'введение'` branch of `generate_chapter_content`. -/
def introPrompt (workType theme : List Char) (targetPages : ℚ) : List Char :=
  "\nНапиши введение для ".toList ++ pyLower workType ++ " на тему \"".toList
    ++ theme ++ "\".\n\nВведение должно содержать:\n- Актуальность темы\n- Цель и задачи работы\n- Объект и предмет исследования\n- Методы исследования\n- Структуру работы\n\nОбъем: примерно ".toList
    ++ intStr (pyInt (targetPages * 1250))
    ++ " символов.\nФормат: LaTeX (используй \\section\x7bВведение\x7d в начале).\nНЕ используй длинные строки - разбивай на короткие (до 80 символов).\nИспользуй ссылки на источники через команду \\cite\x7bsource1\x7d, \\cite\x7bsource2\x7d и т.д. где уместно, но умеренно - по несколько ссылок на страницу.\n".toList

/-- The prompt of the `'заключение'` branch. -/
def conclusionPrompt (workType theme : List Char) (targetPages : ℚ) : List Char :=
  "\nНапиши заключение для ".toList ++ pyLower workType ++ " на тему \"".toList
    ++ theme ++ "\".\n\nЗаключение должно содержать:\n- Краткие выводы по каждой главе\n- Достижение поставленных целей и задач\n- Практическую значимость результатов\n- Перспективы дальнейших исследований\n\nОбъем: примерно ".toList
    ++ intStr (pyInt (targetPages * 1250))
    ++ " символов.\nФормат: LaTeX (используй \\section\x7bЗаключение\x7d в начале).\nНЕ используй длинные строки - разбивай на короткие (до 80 символов).\nИспользуй ссылки на источники через команду \\cite\x7bsource1\x7d, \\cite\x7bsource2\x7d и т.д. где уместно, но умеренно - по несколько ссылок на страницу.\n".toList

/-- The prompt of the `'список'`/`'библиография'` branch. -/
def bibPrompt (workType theme : List Char) : List Char :=
  "\nСоздай список использованных источников для ".toList ++ pyLower workType
    ++ " на тему \"".toList ++ theme
    ++ "\".\n\nВключи 15-20 источников:\n- Научные статьи\n- Монографии\n- Учебники\n- Интернет-ресурсы\n- Нормативные документы (если применимо)\n\nВАЖНО: Используй формат LaTeX thebibliography для корректной работы ссылок!\n\nФормат должен быть:\n\\section\x7bСписок использованных источников\x7d\n\n\\begin\x7bthebibliography\x7d\x7b99\x7d\n\\bibitem\x7bsource1\x7d Ананьева, Т.И. Физиология высшей нервной деятельности / Т.И. Ананьева. - М.: Медицина, 2018. - 432 с.\n\\bibitem\x7bsource2\x7d Следующий источник...\n\\end\x7bthebibliography\x7d\n\nКаждый источник должен иметь уникальный ключ (source1, source2, source3 и т.д.) в команде \\bibitem\x7bключ\x7d.\nНЕ используй длинные строки - разбивай на короткие (до 80 символов).\n".toList

/-- The prompt of the generic-chapter branch. -/
def genericChapterPrompt (chapterTitle workType theme : List Char)
    (targetPages : ℚ) : List Char :=
  "\nНапиши главу \"".toList ++ chapterTitle ++ "\" для ".toList
    ++ pyLower workType ++ " на тему \"".toList ++ theme
    ++ "\".\n\nГлава должна быть содержательной и академической, включать:\n- Теоретические основы\n- Анализ существующих подходов\n- Практические аспекты\n- Примеры и иллюстрации\n\nОбъем: примерно ".toList
    ++ intStr (pyInt (targetPages * 1250))
    ++ " символов.\nФормат: LaTeX (используй \\section\x7b".toList ++ chapterTitle
    ++ "\x7d в начале).\nНЕ используй длинные строки - разбивай на короткие (до 80 символов).\nМожешь включить формулы, таблицы или рисунки где уместно.\nИспользуй ссылки на источники через команду \\cite\x7bsource1\x7d, \\cite\x7bsource2\x7d и т.д. где уместно, но умеренно - по несколько ссылок на страницу.\n".toList

/-- The prompt asking the LLM to invent subsection titles. -/
def subsTitlesPrompt (chapterTitle theme : List Char) : List Char :=
  "\nПредложи 2-3 подраздела для главы \"".toList ++ chapterTitle
    ++ "\" в работе на тему \"".toList ++ theme
    ++ "\".\nОтветь только названиями подразделов, каждый с новой строки, без нумерации.\n".toList

/-- The per-subsection generation prompt. -/
def subsectionPrompt (subsection chapterTitle theme : List Char)
    (pagesPerSubsection : ℚ) : List Char :=
  "\nНапиши подраздел \"".toList ++ subsection ++ "\" для главы \"".toList
    ++ chapterTitle ++ "\" в работе на тему \"".toList ++ theme
    ++ "\".\n\nВАЖНО: Это подраздел, а НЕ отдельная глава!\n\nПодраздел должен быть детальным и содержательным.\nОбъем: примерно ".toList
    ++ intStr (pyInt (pagesPerSubsection * 1250))
    ++ " символов.\n\nФормат: LaTeX\n- ОБЯЗАТЕЛЬНО используй \\subsection\x7b".toList
    ++ subsection
    ++ "\x7d в начале (НЕ \\section!)\n- НЕ используй длинные строки - разбивай на короткие (до 80 символов)\n- Пиши академический текст с примерами и анализом\n- Используй ссылки на источники через команду \\cite\x7bsource1\x7d, \\cite\x7bsource2\x7d и т.д. где уместно, но умеренно - по несколько ссылок на страницу\n\nНачни с команды \\subsection\x7b".toList
    ++ subsection ++ "\x7d и продолжи содержанием.\n".toList

/-- The single prompt of `generate_full_work_content_legacy`. -/
def legacyPrompt (theme : List Char) (pages : ℤ) (workType : List Char) :
    List Char :=
  "\nНапиши полную ".toList ++ pyLower workType ++ " на тему \"".toList ++ theme
    ++ "\" объемом примерно ".toList ++ intStr pages
    ++ " страниц.\n\nСтруктура должна включать:\n1. Введение (1-2 страницы)\n2. Основная часть (3-4 главы, каждая 2-3 страницы)\n3. Заключение (1-2 страницы)\n4. Список литературы\n\nВАЖНЫЕ требования к форматированию:\n- Текст должен быть в формате LaTeX (без преамбулы и \\begin\x7bdocument\x7d)\n- Используй команды \\section\x7b\x7d для глав, \\subsection\x7b\x7d для подразделов\n- НЕ используй длинные строки текста - разбивай абзацы на короткие строки (максимум 80 символов)\n- После каждого предложения делай перенос строки\n- Включи формулы, таблицы или рисунки где уместно\n- Текст должен быть академическим и структурированным\n- Добавь реальные источники в список литературы\n\nНачни прямо с введения:\n".toList

/-- The prompt selection of `generate_chapter_content` (the prompt is
rebuilt identically on every attempt). -/
def chapterPrompt (chapterTitle theme : List Char) (targetPages : ℚ)
    (workType : List Char) : List Char :=
  let titleLower := pyLower chapterTitle
  if containsSub "введение".toList titleLower then
    introPrompt workType theme targetPages
  else if containsSub "заключение".toList titleLower then
    conclusionPrompt workType theme targetPages
  else if containsSub "список".toList titleLower
      || containsSub "библиография".toList titleLower then
    bibPrompt workType theme
  else genericChapterPrompt chapterTitle workType theme targetPages

/-- The validation retry loop of `generate_chapter_content`
(`MAX_ATTEMPTS = 3`): the first tag-valid reply wins; after the attempts are
exhausted the last reply is kept (the admin warning is a side effect). -/
def chapterAttempts (ask : Nat → List Char → List Char) (prompt : List Char) :
    Nat → Nat → List Char → List Char × Nat
  | 0, k, last => (last, k)
  | n + 1, k, _ =>
    let c := ask k prompt
    if (validate_latex_tags c).1 then (c, k + 1)
    else chapterAttempts ask prompt n (k + 1) c

/-- `generate_chapter_content(params)`. -/
def generate_chapter_content (ask : Nat → List Char → List Char) (k : Nat)
    (chapterTitle theme : List Char) (targetPages : ℚ)
    (workType : List Char) : List Char × Nat :=
  chapterAttempts ask (chapterPrompt chapterTitle theme targetPages workType) 3 k []

/-- The per-subsection retry loop of `generate_subsections_content`: each
reply is run through `fix_section_commands` before validation, and the last
(possibly invalid) fixed reply is kept. -/
def subAttempts (ask : Nat → List Char → List Char) (prompt sub : List Char) :
    Nat → Nat → List Char → List Char × Nat
  | 0, k, last => (last, k)
  | n + 1, k, _ =>
    let c := fix_section_commands (ask k prompt) sub
    if (validate_latex_tags c).1 then (c, k + 1)
    else subAttempts ask prompt sub n (k + 1) c

/-- The subsection loop: contents are concatenated with `"\n\n"`, an empty
reply is skipped. -/
def subsLoop (ask : Nat → List Char → List Char)
    (chapterTitle theme : List Char) (per : ℚ) :
    Nat → List (List Char) → List Char × Nat
  | k, [] => ([], k)
  | k, sub :: rest =>
    let r := subAttempts ask (subsectionPrompt sub chapterTitle theme per) sub 3 k []
    let r2 := subsLoop ask chapterTitle theme per r.2 rest
    ((if r.1.isEmpty then [] else r.1 ++ "\n\n".toList) ++ r2.1, r2.2)

/-- `generate_subsections_content(params)`. -/
def generate_subsections_content (ask : Nat → List Char → List Char) (k : Nat)
    (chapterTitle : List Char) (subsections : List (List Char))
    (targetPages : ℚ) (theme : List Char) : List Char × Nat :=
  let sk : List (List Char) × Nat :=
    if subsections.isEmpty then
      let reply := ask k (subsTitlesPrompt chapterTitle theme)
      (((splitLines reply).map pyStrip).filter (fun s => !s.isEmpty), k + 1)
    else (subsections, k)
  if sk.1.isEmpty then ([], sk.2)
  else
    let per := targetPages / (sk.1.length : ℚ)
    let r := subsLoop ask chapterTitle theme per sk.2 sk.1
    (pyStrip r.1, r.2)

/-- `_is_bibliography_chapter(chapter_title)`. -/
def is_bibliography_chapter (title : List Char) : Bool :=
  let tl := pyLower title
  containsSub "список".toList tl || containsSub "библиография".toList tl
    || containsSub "источник".toList tl || containsSub "литература".toList tl

/-- `_split_chapters(chapters)`: main chapters in order, and the last
bibliography chapter if any. -/
def split_chapters (chapters : List Chapter) : List Chapter × Option Chapter :=
  chapters.foldl
    (fun st ch =>
      if is_bibliography_chapter ch.title then (st.1, some ch)
      else (st.1 ++ [ch], st.2))
    ([], none)

/-- One iteration body of the `_generate_main_chapters` loop, up to the
page accounting: the chapter content after the optional subsection
expansion, and the advanced call counter. -/
def chapterStep (ask : Nat → List Char → List Char)
    (theme workType : List Char) (pmap : List (List Char × ℚ)) (k : Nat)
    (ch : Chapter) : List Char × Nat :=
  let target := (dictGet pmap ch.title).getD 2
  let r := generate_chapter_content ask k ch.title theme target workType
  let p := count_pages_in_text r.1
  if should_generate_subsections p target (7 / 10) then
    let r2 := generate_subsections_content ask r.2 ch.title ch.subsections (target - p) theme
    (r.1 ++ "\n\n".toList ++ r2.1, r2.2)
  else r

/-- The page-break separator appended after every generated chapter. -/
def NEWPAGE_SEP : List Char := "\n\n\\newpage\n\n".toList

/-- `_generate_main_chapters(params)`: sequential loop accumulating content
and the running page total, breaking once the total reaches
`content_target_pages * 1.15`. -/
def generate_main_chapters (ask : Nat → List Char → List Char)
    (theme workType : List Char) (pmap : List (List Char × ℚ)) (ctp : ℚ) :
    Nat → ℚ → List Chapter → List Char × Nat
  | k, _, [] => ([], k)
  | k, total, ch :: rest =>
    let r := chapterStep ask theme workType pmap k ch
    let p := count_pages_in_text r.1
    if ctp * (23 / 20) ≤ total + p then (r.1 ++ NEWPAGE_SEP, r.2)
    else
      let rc := generate_main_chapters ask theme workType pmap ctp r.2 (total + p) rest
      (r.1 ++ NEWPAGE_SEP ++ rc.1, rc.2)

/-- The list of chapter contents the `_generate_main_chapters` loop actually
generates, in order (the loop's trace). -/
def mainChaptersTrace (ask : Nat → List Char → List Char)
    (theme workType : List Char) (pmap : List (List Char × ℚ)) (ctp : ℚ) :
    Nat → ℚ → List Chapter → List (List Char)
  | _, _, [] => []
  | k, total, ch :: rest =>
    let r := chapterStep ask theme workType pmap k ch
    let p := count_pages_in_text r.1
    if ctp * (23 / 20) ≤ total + p then [r.1]
    else r.1 :: mainChaptersTrace ask theme workType pmap ctp r.2 (total + p) rest

/-- `_generate_bibliography(params)`. -/
def generate_bibliography (ask : Nat → List Char → List Char)
    (theme workType : List Char) (bibliographyChapter : Option Chapter)
    (k : Nat) : List Char × Nat :=
  let chapterTitle :=
    match bibliographyChapter with
    | some ch => ch.title
    | none => "Список использованных источников".toList
  generate_chapter_content ask k chapterTitle theme (1 / 2) workType

/-- `generate_full_work_content_legacy(order_id, model_name, theme, pages,
work_type)`. -/
def generate_full_work_content_legacy (ask : Nat → List Char → List Char)
    (rand : Nat → Nat) (k : Nat) (theme : List Char) (pages : ℤ)
    (workType : List Char) : List Char × Nat :=
  let c := ask k (legacyPrompt theme pages workType)
  (fix_citations_in_work_content rand c, k + 1)

/-- `generate_work_content_stepwise(params)`.  The embedded
`parse_work_plan` is total, so the source's `except` fallback and its
empty-plan fallback collapse into the single empty-chapter-list branch. -/
def generate_work_content_stepwise (ask : Nat → List Char → List Char)
    (rand : Nat → Nat) (k : Nat) (theme : List Char) (pages : ℤ)
    (workType planText : List Char) : List Char × Nat :=
  let chapters := parse_work_plan planText
  if chapters.isEmpty then
    generate_full_work_content_legacy ask rand k theme pages workType
  else
    let mb := split_chapters chapters
    let content_target_pages := calculate_content_pages_for_target pages mb.1.length
    let pages_per_chapter := calculate_pages_per_chapter (content_target_pages - 1 / 2) mb.1
    let mainR := generate_main_chapters ask theme workType pages_per_chapter content_target_pages k 0 mb.1
    let bibR := generate_bibliography ask theme workType mb.2 mainR.2
    let full_content := pyStrip (mainR.1 ++ bibR.1)
    (fix_citations_in_work_content rand full_content, bibR.2)

/-! ## Specification-side definitions

Definitions below restate, in the words of the specification's claims, what
the outputs above should look like; the theorems compare them with the
source-translated functions. -/

/-- Original text of a foreign-cite decomposition: interleave the `\cite`
tokens back between the interstitial texts. -/
def origPairs : List (List Char × List Char) → List Char
  | [] => []
  | (k, t) :: ps => citeTok k ++ t ++ origPairs ps

/-- The interstitial texts alone (what deleting every foreign token leaves). -/
def textsOnly : List (List Char × List Char) → List Char
  | [] => []
  | (_, t) :: ps => t ++ textsOnly ps

/-- The key number the claim assigns to the j-th foreign citation (0-based):
the first `count` occurrences get `1..count` sequentially, the later ones the
drawn value. -/
def claimAssignedNum (rand : Nat → Nat) (count j : Nat) : Nat :=
  if j < count then j + 1 else rand j

/-- Reassembly of the decomposition with every foreign token rewritten to
the key the claim assigns. -/
def claimRebuild (rand : Nat → Nat) (count : Nat) :
    Nat → List (List Char × List Char) → List Char
  | _, [] => []
  | j, (_, t) :: ps =>
    citeSrcTok (claimAssignedNum rand count j) ++ t ++ claimRebuild rand count (j + 1) ps

/-- The foreign-cite decomposition of a whole text. -/
def foreignSplit (content : List Char) : List Char × List (List Char × List Char) :=
  splitForeign content.length content

/-- Sum of the fixed allocations of the special chapters (non-special
chapters contribute zero). -/
def specialSum (chapters : List Chapter) : ℚ :=
  (chapters.map fun ch => (findSpecial (pyLower ch.title)).getD 0).sum

/-- The chapters with no special keyword in their title, in order. -/
def mainsOf (chapters : List Chapter) : List Chapter :=
  chapters.filter fun ch => (findSpecial (pyLower ch.title)).isNone

/-- Total page estimate of a list of generated chapter contents. -/
def sumPages (l : List (List Char)) : ℚ :=
  (l.map count_pages_in_text).sum

/-- Generated chapter contents joined the way the loop accumulates them,
each followed by the `\newpage` separator. -/
def joinNewpage : List (List Char) → List Char
  | [] => []
  | c :: cs => c ++ NEWPAGE_SEP ++ joinNewpage cs

/-! Concrete inputs used by witnesses and counterexamples. -/

/-- A document whose main text already cites `source5` while the
bibliography defines only `source1`. -/
def c3cexFull : List Char :=
  "pre \\cite\x7bsource5\x7d post\n\\section\x7bСписок литературы\x7d\n\\bibitem\x7bsource1\x7d A".toList

def c3cexMain : List Char := "pre \\cite\x7bsource5\x7d post\n".toList

def c3cexBib : List Char :=
  "\\section\x7bСписок литературы\x7d\n\\bibitem\x7bsource1\x7d A".toList

/-- Main text with three foreign citations and one already-correct one. -/
def demoContent : List Char :=
  "a \\cite\x7bxx\x7d b \\cite\x7bsource9\x7d c \\cite\x7byy\x7d d \\cite\x7bzz\x7d e".toList

/-- A bibliography defining `source1` and `source2`. -/
def demoBib : List Char :=
  "\\bibitem\x7bsource1\x7d A\n\\bibitem\x7bsource2\x7d B".toList

/-- A bibliography text with no `\bibitem{sourceN}` entry at all. -/
def demoEmptyBib : List Char := "\\section\x7bСписок литературы\x7d пусто".toList

/-- The always-1 draw oracle (a legal value of `random.randint(1, N)` for
any `N ≥ 1`). -/
def rand1 : Nat → Nat := fun _ => 1

/-- The chapter list of the spec's 20-page allocation example. -/
def c7Example : List Chapter :=
  [⟨"Введение".toList, []⟩, ⟨"Основная глава".toList, []⟩,
   ⟨"Вторая глава".toList, []⟩, ⟨"Список литературы".toList, []⟩]

/-- Three chapters whose special members consume all three pages. -/
def c7ZeroExample : List Chapter :=
  [⟨"Введение".toList, []⟩, ⟨"Основы темы".toList, []⟩, ⟨"Заключение".toList, []⟩]

/-- The characters `\cite{source` that open every source-keyed token. -/
def srcTokPre : List Char := "\\cite".toList ++ [obr] ++ "source".toList

/-- The same opening without its leading backslash. -/
def tokMid : List Char := "cite\x7bsource".toList

/-- The literal text `\cite{source<ds>}` for a digit string `ds`: what it
means for a text to reference the key `source<ds>`. -/
def srcCiteTokOf (ds : List Char) : List Char := srcTokPre ++ ds ++ [cbr]

/-! # Theorems -/

/-! ## Scanner basics -/

theorem dropStart_eq {p s r : List Char} (h : dropStart p s = some r) :
    s = p ++ r := by
  induction p generalizing s with
  | nil => simpa [dropStart] using h
  | cons x ps ih =>
    cases s with
    | nil => simp [dropStart] at h
    | cons c cs =>
      simp only [dropStart] at h
      split at h
      · next hc => subst hc; simpa using ih h
      · exact absurd h (by simp)

theorem takeToBrace_eq {s n r : List Char} (h : takeToBrace s = some (n, r)) :
    s = n ++ cbr :: r := by
  induction s generalizing n with
  | nil => simp [takeToBrace] at h
  | cons c cs ih =>
    simp only [takeToBrace] at h
    split at h
    · next hc =>
      obtain ⟨rfl, rfl⟩ := by simpa using h
      simp [hc]
    · next hc =>
      cases h2 : takeToBrace cs with
      | none => rw [h2] at h; simp at h
      | some p =>
        obtain ⟨n2, r2⟩ := p
        rw [h2] at h
        obtain ⟨rfl, rfl⟩ := by simpa using h
        simpa using ih h2

theorem citeMatch_eq {s key rest : List Char}
    (h : citeMatch s = some (key, rest)) :
    s = citeTok key ++ rest ∧ key ≠ [] ∧ isSourceKey key = false := by
  unfold citeMatch at h
  cases h1 : dropStart ("\\cite".toList ++ [obr]) s with
  | none =>
    simp only [h1] at h
    exact Option.noConfusion h
  | some r =>
    simp only [h1] at h
    cases h2 : takeToBrace r with
    | none =>
      simp only [h2] at h
      exact Option.noConfusion h
    | some p =>
      obtain ⟨k2, r2⟩ := p
      simp only [h2] at h
      split at h
      · next hcond =>
        obtain ⟨rfl, rfl⟩ := by simpa using h
        have hs := dropStart_eq h1
        have hr := takeToBrace_eq h2
        refine ⟨?_, ?_, ?_⟩
        · rw [hs, hr]; simp [citeTok]
        · intro hk
          rw [hk] at hcond
          simp at hcond
        · rcases Bool.and_eq_true_iff.mp hcond with ⟨-, h4⟩
          simpa using h4
      · exact absurd h (by simp)

theorem citeMatch_length {s key rest : List Char}
    (h : citeMatch s = some (key, rest)) : rest.length < s.length := by
  rcases citeMatch_eq h with ⟨rfl, hk, -⟩
  have : 0 < (citeTok key).length := by simp [citeTok]
  simp only [List.length_append]
  omega

/-! ## The foreign-citation decomposition -/

theorem splitForeign_orig :
    ∀ (fuel : Nat) (s : List Char), s.length ≤ fuel →
      (splitForeign fuel s).1 ++ origPairs (splitForeign fuel s).2 = s := by
  intro fuel
  induction fuel with
  | zero => intro s _; simp [splitForeign, origPairs]
  | succ n ih =>
    intro s hs
    cases s with
    | nil => simp [splitForeign, origPairs]
    | cons c cs =>
      cases hm : citeMatch (c :: cs) with
      | some p =>
        obtain ⟨key, rest⟩ := p
        have hlen : rest.length ≤ n := by
          have := citeMatch_length hm
          simp only [List.length_cons] at this hs
          omega
        simp only [splitForeign, hm, origPairs, List.nil_append]
        rw [List.append_assoc, ih rest hlen]
        exact ((citeMatch_eq hm).1).symm
      | none =>
        have hlen : cs.length ≤ n := by
          simp only [List.length_cons] at hs
          omega
        simp only [splitForeign, hm, origPairs, List.cons_append]
        rw [ih cs hlen]

theorem replaceForeign_rebuild (rand : Nat → Nat) (count : Nat) :
    ∀ (fuel : Nat) (j : Nat) (s : List Char), s.length ≤ fuel →
      replaceForeignCitesAux rand count fuel j s
        = (splitForeign fuel s).1 ++ claimRebuild rand count j (splitForeign fuel s).2 := by
  intro fuel
  induction fuel with
  | zero => intro j s _; simp [splitForeign, replaceForeignCitesAux, claimRebuild]
  | succ n ih =>
    intro j s hs
    cases s with
    | nil => simp [splitForeign, replaceForeignCitesAux, claimRebuild]
    | cons c cs =>
      cases hm : citeMatch (c :: cs) with
      | some p =>
        obtain ⟨key, rest⟩ := p
        have hlen : rest.length ≤ n := by
          have := citeMatch_length hm
          simp only [List.length_cons] at this hs
          omega
        simp only [replaceForeignCitesAux, splitForeign, hm, claimRebuild,
          claimAssignedNum, List.nil_append]
        rw [ih (j + 1) rest hlen, List.append_assoc]
      | none =>
        have hlen : cs.length ≤ n := by
          simp only [List.length_cons] at hs
          omega
        simp only [replaceForeignCitesAux, splitForeign, hm, List.cons_append]
        rw [ih j cs hlen]

theorem deleteForeign_texts :
    ∀ (fuel : Nat) (s : List Char), s.length ≤ fuel →
      deleteForeignCitesAux fuel s
        = (splitForeign fuel s).1 ++ textsOnly (splitForeign fuel s).2 := by
  intro fuel
  induction fuel with
  | zero => intro s _; simp [splitForeign, deleteForeignCitesAux, textsOnly]
  | succ n ih =>
    intro s hs
    cases s with
    | nil => simp [splitForeign, deleteForeignCitesAux, textsOnly]
    | cons c cs =>
      cases hm : citeMatch (c :: cs) with
      | some p =>
        obtain ⟨key, rest⟩ := p
        have hlen : rest.length ≤ n := by
          have := citeMatch_length hm
          simp only [List.length_cons] at this hs
          omega
        simp only [deleteForeignCitesAux, splitForeign, hm, textsOnly, List.nil_append]
        exact ih rest hlen
      | none =>
        have hlen : cs.length ≤ n := by
          simp only [List.length_cons] at hs
          omega
        simp only [deleteForeignCitesAux, splitForeign, hm, List.cons_append]
        rw [ih cs hlen]

theorem findForeign_keys :
    ∀ (fuel : Nat) (s : List Char), s.length ≤ fuel →
      findForeignCitesAux fuel s = (splitForeign fuel s).2.map Prod.fst := by
  intro fuel
  induction fuel with
  | zero => intro s _; simp [splitForeign, findForeignCitesAux]
  | succ n ih =>
    intro s hs
    cases s with
    | nil => simp [splitForeign, findForeignCitesAux]
    | cons c cs =>
      cases hm : citeMatch (c :: cs) with
      | some p =>
        obtain ⟨key, rest⟩ := p
        have hlen : rest.length ≤ n := by
          have := citeMatch_length hm
          simp only [List.length_cons] at this hs
          omega
        simp only [findForeignCitesAux, splitForeign, hm, List.map_cons]
        rw [ih rest hlen]
      | none =>
        have hlen : cs.length ≤ n := by
          simp only [List.length_cons] at hs
          omega
        simp only [findForeignCitesAux, splitForeign, hm]
        exact ih cs hlen

theorem splitForeign_foreign :
    ∀ (fuel : Nat) (s : List Char) (p : List Char × List Char),
      p ∈ (splitForeign fuel s).2 → p.1 ≠ [] ∧ isSourceKey p.1 = false := by
  intro fuel
  induction fuel with
  | zero => intro s p hp; simp [splitForeign] at hp
  | succ n ih =>
    intro s p hp
    cases s with
    | nil => simp [splitForeign] at hp
    | cons c cs =>
      cases hm : citeMatch (c :: cs) with
      | some q =>
        obtain ⟨key, rest⟩ := q
        simp only [splitForeign, hm, List.mem_cons] at hp
        rcases hp with rfl | hp
        · exact ⟨(citeMatch_eq hm).2.1, (citeMatch_eq hm).2.2⟩
        · exact ih rest p hp
      | none =>
        simp only [splitForeign, hm] at hp
        exact ih cs p hp

/-- `_replace_citations_in_content` with at least one source equals the
claim's reassembly of the foreign-cite decomposition. -/
theorem replace_citations_rebuild (rand : Nat → Nat) (content bib : List Char)
    (N : Nat) (hN : extract_source_count_from_bibliography bib = N)
    (hpos : 1 ≤ N) :
    replace_citations_in_content rand content bib
      = (foreignSplit content).1 ++ claimRebuild rand N 0 (foreignSplit content).2 := by
  have hN0 : ¬ N = 0 := by omega
  simp only [replace_citations_in_content, hN, if_neg hN0]
  by_cases hf : findForeignCites content = []
  · rw [if_pos hf]
    have hk := findForeign_keys content.length content le_rfl
    have hf2 : findForeignCitesAux content.length content = [] := hf
    rw [hf2] at hk
    have hps : (foreignSplit content).2 = [] := by
      unfold foreignSplit
      cases hsp : (splitForeign content.length content).2 with
      | nil => rfl
      | cons q qs => rw [hsp] at hk; simp at hk
    have horig2 : (foreignSplit content).1 ++ origPairs (foreignSplit content).2 = content :=
      splitForeign_orig content.length content le_rfl
    rw [hps] at horig2 ⊢
    simp only [origPairs, claimRebuild, List.append_nil] at horig2 ⊢
    exact horig2.symm
  · rw [if_neg hf]
    exact replaceForeign_rebuild rand N content.length 0 content le_rfl

/-- C2: with a bibliography defining `source1..sourceN` (`N ≥ 1`), citation
repair rewrites exactly the foreign `\cite` tokens of the text: the text
splits as interstitial chunks (kept verbatim, including every token already
of the form `\cite{sourceK}`) around the foreign tokens, the j-th foreign
token (0-based) becoming `\cite{source(j+1)}` while `j < N` and
`\cite{source(rand j)}` with `rand j ∈ [1, N]` afterwards. -/
theorem citation_repair_sequential_then_random (rand : Nat → Nat)
    (content bib : List Char) (N : Nat)
    (hN : extract_source_count_from_bibliography bib = N)
    (hpos : 1 ≤ N)
    (hr : ∀ j, 1 ≤ rand j ∧ rand j ≤ N) :
    replace_citations_in_content rand content bib
      = (foreignSplit content).1 ++ claimRebuild rand N 0 (foreignSplit content).2
    ∧ (foreignSplit content).1 ++ origPairs (foreignSplit content).2 = content
    ∧ (∀ p ∈ (foreignSplit content).2, p.1 ≠ [] ∧ isSourceKey p.1 = false)
    ∧ (∀ j, j < N → claimAssignedNum rand N j = j + 1)
    ∧ (∀ j, N ≤ j → 1 ≤ claimAssignedNum rand N j ∧ claimAssignedNum rand N j ≤ N) := by
  refine ⟨replace_citations_rebuild rand content bib N hN hpos,
    splitForeign_orig content.length content le_rfl,
    fun p hp => splitForeign_foreign content.length content p hp,
    fun j hj => by simp [claimAssignedNum, hj],
    fun j hj => ?_⟩
  have : ¬ j < N := by omega
  simp only [claimAssignedNum, if_neg this]
  exact hr j

theorem c2_witness :
    replace_citations_in_content rand1 demoContent demoBib
      = (foreignSplit demoContent).1 ++ claimRebuild rand1 2 0 (foreignSplit demoContent).2 :=
  (citation_repair_sequential_then_random rand1 demoContent demoBib 2
    (by decide) (by decide) (fun _ => ⟨Nat.le_refl 1, Nat.le_succ 1⟩)).1

/-- C6: with no `\bibitem{sourceN}` entry in the bibliography, citation
repair deletes every foreign `\cite` token and keeps the interstitial text
unchanged. -/
theorem citation_repair_zero_sources_deletes (rand : Nat → Nat)
    (content bib : List Char)
    (h : extract_source_count_from_bibliography bib = 0) :
    replace_citations_in_content rand content bib
      = (foreignSplit content).1 ++ textsOnly (foreignSplit content).2
    ∧ (foreignSplit content).1 ++ origPairs (foreignSplit content).2 = content
    ∧ (∀ p ∈ (foreignSplit content).2, p.1 ≠ [] ∧ isSourceKey p.1 = false) := by
  refine ⟨?_, splitForeign_orig content.length content le_rfl,
    fun p hp => splitForeign_foreign content.length content p hp⟩
  simp only [replace_citations_in_content, h, if_pos rfl, deleteForeignCites]
  exact deleteForeign_texts content.length content le_rfl

theorem c6_witness :
    replace_citations_in_content rand1 demoContent demoEmptyBib
      = (foreignSplit demoContent).1 ++ textsOnly (foreignSplit demoContent).2 :=
  (citation_repair_zero_sources_deletes rand1 demoContent demoEmptyBib (by decide)).1

/-! ## List span lemmas

An infix of a concatenation lies in the left part, in the right part, or
spans the single boundary. -/

theorem prefix_append_split {α : Type} {xs A B : List α} (h : xs <+: A ++ B) :
    xs <+: A ∨ ∃ b, xs = A ++ b ∧ b <+: B := by
  induction A generalizing xs with
  | nil => exact Or.inr ⟨xs, rfl, by simpa using h⟩
  | cons a A' ih =>
    cases xs with
    | nil => exact Or.inl List.nil_prefix
    | cons x xs' =>
      rw [List.cons_append] at h
      rcases List.cons_prefix_cons.mp h with ⟨rfl, h'⟩
      rcases ih h' with h2 | ⟨b, rfl, hb⟩
      · exact Or.inl (List.cons_prefix_cons.mpr ⟨rfl, h2⟩)
      · exact Or.inr ⟨b, by simp, hb⟩

theorem infix_append_cases {α : Type} {T A B : List α} (h : T <:+: A ++ B) :
    T <:+: A ∨ T <:+: B ∨
      ∃ a b, a ++ b = T ∧ a ≠ [] ∧ b ≠ [] ∧ a <:+ A ∧ b <+: B := by
  rcases h with ⟨s, t, hst⟩
  have hs : s <+: A ++ B := ⟨T ++ t, by rw [← hst]; simp [List.append_assoc]⟩
  rcases prefix_append_split hs with hsA | ⟨s₀, rfl, -⟩
  · rcases hsA with ⟨s₁, hs₁⟩
    have h2 : T ++ t = s₁ ++ B := by
      apply @List.append_cancel_left _ s
      rw [← List.append_assoc, hst, ← hs₁, List.append_assoc]
    have hTpre : T <+: s₁ ++ B := ⟨t, h2⟩
    rcases prefix_append_split hTpre with hT1 | ⟨b, hTb, hb⟩
    · rcases hT1 with ⟨t₀, ht₀⟩
      exact Or.inl ⟨s, t₀, by rw [List.append_assoc, ht₀, hs₁]⟩
    · by_cases hs1nil : s₁ = []
      · subst hs1nil
        refine Or.inr (Or.inl ?_)
        rw [hTb, List.nil_append]
        exact hb.isInfix
      · by_cases hbnil : b = []
        · refine Or.inl ?_
          rw [hbnil, List.append_nil] at hTb
          subst hTb
          exact ⟨s, [], by rw [List.append_nil, hs₁]⟩
        · exact Or.inr (Or.inr ⟨s₁, b, hTb.symm, hs1nil, hbnil, ⟨s, hs₁⟩, hb⟩)
  · refine Or.inr (Or.inl ?_)
    have h2 : s₀ ++ T ++ t = B := by
      apply @List.append_cancel_left _ A
      rw [← hst]; simp [List.append_assoc]
    exact ⟨s₀, t, h2⟩

theorem prefix_head_eq {α : Type} {b : List α} {x : α} {X : List α}
    (hb : b ≠ []) (h : b <+: x :: X) : b.head? = some x := by
  cases b with
  | nil => exact absurd rfl hb
  | cons y b' =>
    rcases List.cons_prefix_cons.mp h with ⟨rfl, -⟩
    rfl

theorem suffix_of_head_unique {α : Type} {a : List α} {x : α} {X : List α}
    (h : a <:+ x :: X) (hX : x ∉ X) (hhead : a.head? = some x) :
    a = x :: X := by
  rcases h with ⟨s, hs⟩
  cases s with
  | nil => simpa using hs
  | cons y s' =>
    rw [List.cons_append] at hs
    injection hs with hy hs'
    exfalso
    apply hX
    have hxa : x ∈ a := by
      cases a with
      | nil => simp at hhead
      | cons c a' => simp_all
    rw [← hs']
    exact List.mem_append_right _ hxa

theorem span_bs_contra {a b X : List Char} (hX : a ++ b = '\\' :: X)
    (hXbs : '\\' ∉ X) (ha : a ≠ []) (hbh : b.head? = some '\\') : False := by
  cases a with
  | nil => exact absurd rfl ha
  | cons x a' =>
    rw [List.cons_append] at hX
    injection hX with hx hX'
    apply hXbs
    have hxb : '\\' ∈ b := by
      cases b with
      | nil => simp at hbh
      | cons c b' => simp_all
    rw [← hX']
    exact List.mem_append_right _ hxb

theorem end_brace_eq {W V b : List Char} (hW : cbr ∉ W) (hV : cbr ∉ V)
    (h : W ++ [cbr] = V ++ cbr :: b) : W = V ∧ b = [] := by
  induction W generalizing V with
  | nil =>
    cases V with
    | nil => simpa using h
    | cons v V' =>
      rw [List.nil_append, List.cons_append] at h
      injection h with h1 h2
      exact absurd h2.symm (by simp)
  | cons w W' ih =>
    cases V with
    | nil =>
      rw [List.cons_append, List.nil_append] at h
      injection h with hw h2
      exact absurd (hw ▸ List.mem_cons_self w W') hW
    | cons v V' =>
      rw [List.cons_append, List.cons_append] at h
      injection h with hw h2
      subst hw
      have := ih (fun hm => hW (List.mem_cons_of_mem _ hm))
        (fun hm => hV (List.mem_cons_of_mem _ hm)) h2
      exact ⟨by rw [this.1], this.2⟩

theorem digits_brace_eq {ds dm t : List Char}
    (hds : ∀ c ∈ ds, isDigitCh c = true) (hdm : ∀ c ∈ dm, isDigitCh c = true)
    (h : ds ++ cbr :: t = dm ++ [cbr]) : ds = dm ∧ t = [] := by
  have hds' : cbr ∉ ds := fun hm => by
    have := hds cbr hm
    simp [isDigitCh, cbr] at this
  have hdm' : cbr ∉ dm := fun hm => by
    have := hdm cbr hm
    simp [isDigitCh, cbr] at this
  have := end_brace_eq hdm' hds' h.symm
  exact ⟨this.1.symm, this.2⟩

/-! ## Decimal rendering -/

theorem digit_char_toNat : ∀ r < 10, (Char.ofNat (48 + r)).toNat = 48 + r := by
  decide

theorem digit_char_isDigit : ∀ r < 10, isDigitCh (Char.ofNat (48 + r)) = true := by
  decide

theorem numCharsAux_digits :
    ∀ (fuel n : Nat), n < fuel → ∀ c ∈ numCharsAux fuel n, isDigitCh c = true := by
  intro fuel
  induction fuel with
  | zero => intro n h; omega
  | succ f ih =>
    intro n h c hc
    by_cases h10 : n < 10
    · simp only [numCharsAux, if_pos h10, List.mem_singleton] at hc
      subst hc
      exact digit_char_isDigit n h10
    · simp only [numCharsAux, if_neg h10, List.mem_append, List.mem_singleton] at hc
      rcases hc with hc | rfl
      · exact ih (n / 10) (by omega) c hc
      · exact digit_char_isDigit (n % 10) (by omega)

theorem numChars_digits (n : Nat) : ∀ c ∈ numChars n, isDigitCh c = true :=
  numCharsAux_digits (n + 1) n (Nat.lt_succ_self n)

theorem numCharsAux_ne_nil :
    ∀ (fuel n : Nat), n < fuel → numCharsAux fuel n ≠ [] := by
  intro fuel
  induction fuel with
  | zero => intro n h; omega
  | succ f _ =>
    intro n _
    by_cases h10 : n < 10
    · simp [numCharsAux, if_pos h10]
    · simp [numCharsAux, if_neg h10]

theorem numChars_ne_nil (n : Nat) : numChars n ≠ [] :=
  numCharsAux_ne_nil (n + 1) n (Nat.lt_succ_self n)

theorem numVal_append_one (xs : List Char) (c : Char) :
    numVal (xs ++ [c]) = 10 * numVal xs + (c.toNat - 48) := by
  simp [numVal, List.foldl_append]

theorem numCharsAux_val :
    ∀ (fuel n : Nat), n < fuel → numVal (numCharsAux fuel n) = n := by
  intro fuel
  induction fuel with
  | zero => intro n h; omega
  | succ f ih =>
    intro n h
    by_cases h10 : n < 10
    · simp only [numCharsAux, if_pos h10]
      have := digit_char_toNat n h10
      simp [numVal, this]
    · simp only [numCharsAux, if_neg h10, numVal_append_one]
      rw [ih (n / 10) (by omega)]
      have := digit_char_toNat (n % 10) (by omega)
      rw [this]
      omega

theorem numVal_numChars (n : Nat) : numVal (numChars n) = n :=
  numCharsAux_val (n + 1) n (Nat.lt_succ_self n)

/-! ## Source-key token structure -/

theorem digit_ne_bs {c : Char} (h : isDigitCh c = true) : c ≠ '\\' := by
  intro hc
  rw [hc] at h
  exact absurd h (by decide)

theorem digit_ne_cbr {c : Char} (h : isDigitCh c = true) : c ≠ cbr := by
  intro hc
  rw [hc] at h
  exact absurd h (by decide)

theorem srcTokPre_shape : srcTokPre = '\\' :: tokMid := by decide

theorem tok_shape (ds : List Char) :
    srcCiteTokOf ds = '\\' :: (tokMid ++ ds ++ [cbr]) := by
  rw [srcCiteTokOf, srcTokPre_shape]
  simp [List.cons_append, List.append_assoc]

theorem citeSrcTok_shape (m : Nat) : citeSrcTok m = srcCiteTokOf (numChars m) := by
  simp [citeSrcTok, citeTok, srcCiteTokOf, srcTokPre, List.append_assoc]

theorem bs_not_mem_rest {ds : List Char}
    (hds : ∀ c ∈ ds, isDigitCh c = true) : '\\' ∉ tokMid ++ ds ++ [cbr] := by
  intro hm
  rcases List.mem_append.mp hm with hm2 | hm2
  · rcases List.mem_append.mp hm2 with hm3 | hm3
    · exact absurd hm3 (by decide)
    · exact digit_ne_bs (hds _ hm3) rfl
  · exact absurd hm2 (by decide)

theorem cbr_not_mem_pre {ds : List Char}
    (hds : ∀ c ∈ ds, isDigitCh c = true) : cbr ∉ srcTokPre ++ ds := by
  intro hm
  rcases List.mem_append.mp hm with hm2 | hm2
  · exact absurd hm2 (by decide)
  · exact digit_ne_cbr (hds _ hm2) rfl

theorem tok_ne_nil (ds : List Char) : srcCiteTokOf ds ≠ [] := by
  rw [tok_shape]
  simp

theorem tok_head {a b ds : List Char} (hab : a ++ b = srcCiteTokOf ds)
    (ha : a ≠ []) : a.head? = some '\\' := by
  rw [tok_shape] at hab
  cases a with
  | nil => exact absurd rfl ha
  | cons x a' =>
    rw [List.cons_append] at hab
    injection hab with h1 h2
    rw [List.head?_cons, h1]

/-- A source-keyed token inside another one carries the same number. -/
theorem tok_infix_srcTok {ds : List Char} {m : Nat}
    (hds : ∀ c ∈ ds, isDigitCh c = true)
    (h : srcCiteTokOf ds <:+: citeSrcTok m) : numVal ds = m := by
  rw [citeSrcTok_shape] at h
  rcases h with ⟨s, t, hst⟩
  rw [tok_shape (numChars m)] at hst
  cases s with
  | cons y s' =>
    exfalso
    rw [List.cons_append] at hst
    injection hst with h1 h2
    simp only [List.append_eq] at h2
    apply bs_not_mem_rest (numChars_digits m)
    rw [← h2]
    apply List.mem_append_left
    apply List.mem_append_right
    rw [tok_shape ds]
    exact List.mem_cons_self _ _
  | nil =>
    rw [List.nil_append, tok_shape ds, List.cons_append] at hst
    injection hst with h1 h2
    have h3 : tokMid ++ ((ds ++ [cbr]) ++ t) = tokMid ++ (numChars m ++ [cbr]) := by
      simpa [List.append_assoc] using h2
    have h4 : (ds ++ [cbr]) ++ t = numChars m ++ [cbr] :=
      List.append_cancel_left h3
    have h5 : ds ++ cbr :: t = numChars m ++ [cbr] := by
      rw [← h4]; simp
    have := digits_brace_eq hds (numChars_digits m) h5
    rw [this.1, numVal_numChars]

theorem claimAssignedNum_bounds {rand : Nat → Nat} {N : Nat} (_hpos : 1 ≤ N)
    (hr : ∀ j, 1 ≤ rand j ∧ rand j ≤ N) (j : Nat) :
    1 ≤ claimAssignedNum rand N j ∧ claimAssignedNum rand N j ≤ N := by
  unfold claimAssignedNum
  split
  · omega
  · exact hr j

/-- No token of the claim's reassembly references a key above `N`, unless
it lies inside one of the interstitial texts. -/
theorem rebuild_srcTok_infix (rand : Nat → Nat) (N : Nat) (hpos : 1 ≤ N)
    (hr : ∀ j, 1 ≤ rand j ∧ rand j ≤ N) (ds : List Char)
    (hds : ∀ c ∈ ds, isDigitCh c = true) :
    ∀ (ps : List (List Char × List Char)) (j : Nat),
      srcCiteTokOf ds <:+: claimRebuild rand N j ps →
      (∃ p ∈ ps, srcCiteTokOf ds <:+: p.2) ∨ numVal ds ≤ N := by
  intro ps
  induction ps with
  | nil =>
    intro j h
    rw [claimRebuild] at h
    exact absurd (List.eq_nil_of_infix_nil h) (tok_ne_nil ds)
  | cons q ps' ih =>
    intro j h
    obtain ⟨k, t⟩ := q
    rw [claimRebuild, List.append_assoc] at h
    rcases infix_append_cases h with h1 | h1 | h1
    · right
      have := tok_infix_srcTok hds h1
      rw [this]
      exact (claimAssignedNum_bounds hpos hr j).2
    · rcases infix_append_cases h1 with h2 | h2 | h2
      · exact Or.inl ⟨(k, t), List.mem_cons_self _ _, h2⟩
      · rcases ih (j + 1) h2 with ⟨p, hp, hinf⟩ | h3
        · exact Or.inl ⟨p, List.mem_cons_of_mem _ hp, hinf⟩
        · exact Or.inr h3
      · exfalso
        rcases h2 with ⟨a, b, hab, ha, hb, -, hbPre⟩
        cases ps' with
        | nil =>
          rw [claimRebuild] at hbPre
          exact hb (List.prefix_nil.mp hbPre)
        | cons q2 ps'' =>
          have hshape : claimRebuild rand N (j + 1) (q2 :: ps'')
              = '\\' :: (tokMid ++ numChars (claimAssignedNum rand N (j + 1)) ++ [cbr]
                  ++ q2.2 ++ claimRebuild rand N (j + 2) ps'') := by
            rw [claimRebuild, citeSrcTok_shape, tok_shape]
            simp [List.cons_append, List.append_assoc]
          rw [hshape] at hbPre
          have hbh := prefix_head_eq hb hbPre
          rw [tok_shape ds] at hab
          exact span_bs_contra hab (bs_not_mem_rest hds) ha hbh
    · exfalso
      rcases h1 with ⟨a, b, hab, ha, hb, haSuf, -⟩
      have hah := tok_head hab ha
      rw [citeSrcTok_shape, tok_shape] at haSuf
      have haI := suffix_of_head_unique haSuf
        (bs_not_mem_rest (numChars_digits (claimAssignedNum rand N j))) hah
      rw [haI, ← tok_shape, ← citeSrcTok_shape] at hab
      have hWV : (srcTokPre ++ ds) ++ [cbr]
          = (srcTokPre ++ numChars (claimAssignedNum rand N j)) ++ cbr :: b := by
        have h6 : srcTokPre ++ ds ++ [cbr]
            = citeSrcTok (claimAssignedNum rand N j) ++ b := hab.symm
        rw [h6]
        simp [citeSrcTok, citeTok, srcTokPre, List.append_assoc]
      have := end_brace_eq (cbr_not_mem_pre hds)
        (cbr_not_mem_pre (numChars_digits _)) hWV
      exact hb this.2

theorem infix_append_left {α : Type} {X A B : List α} (h : X <:+: B) :
    X <:+: A ++ B := by
  rcases h with ⟨s, t, hst⟩
  exact ⟨A ++ s, t, by rw [← hst]; simp [List.append_assoc]⟩

theorem pair_text_infix_orig :
    ∀ (ps : List (List Char × List Char)) (p : List Char × List Char),
      p ∈ ps → p.2 <:+: origPairs ps := by
  intro ps
  induction ps with
  | nil => intro p hp; simp at hp
  | cons q ps' ih =>
    intro p hp
    obtain ⟨k, t⟩ := q
    rcases List.mem_cons.mp hp with rfl | hp
    · exact ⟨citeTok k, origPairs ps', by simp [origPairs, List.append_assoc]⟩
    · rcases ih p hp with ⟨s, t', hst⟩
      exact ⟨citeTok k ++ t ++ s, t', by rw [origPairs, ← hst]; simp [List.append_assoc]⟩

theorem claimRebuild_cons_shape (rand : Nat → Nat) (N j : Nat)
    (q : List Char × List Char) (ps : List (List Char × List Char)) :
    claimRebuild rand N j (q :: ps)
      = '\\' :: (tokMid ++ numChars (claimAssignedNum rand N j) ++ [cbr]
          ++ q.2 ++ claimRebuild rand N (j + 1) ps) := by
  obtain ⟨k, t⟩ := q
  rw [claimRebuild, citeSrcTok_shape, tok_shape]
  simp [List.cons_append, List.append_assoc]

/-- C3 (amended): after citation repair with a bibliography defining
`source1..sourceN` (`N ≥ 1`), every `\cite{source<ds>}` token referenced by
the final main text either already occurred in the input main text or has
value at most `N`; pre-existing `\cite{sourceK}` tokens are preserved even
when `K > N`. -/
theorem citation_repair_key_bound (rand : Nat → Nat)
    (full main bib : List Char) (N : Nat)
    (hsplit : find_bibliography full = some (main, bib))
    (hN : extract_source_count_from_bibliography bib = N) (hpos : 1 ≤ N)
    (hr : ∀ j, 1 ≤ rand j ∧ rand j ≤ N) :
    fix_citations_in_work_content rand full
      = replace_citations_in_content rand main bib ++ bib
    ∧ ∀ ds : List Char, (∀ c ∈ ds, isDigitCh c = true) →
        srcCiteTokOf ds <:+: replace_citations_in_content rand main bib →
        srcCiteTokOf ds <:+: main ∨ numVal ds ≤ N := by
  constructor
  · simp [fix_citations_in_work_content, hsplit]
  · intro ds hds hT
    rw [replace_citations_rebuild rand main bib N hN hpos] at hT
    have horig : (foreignSplit main).1 ++ origPairs (foreignSplit main).2 = main :=
      splitForeign_orig main.length main le_rfl
    rcases infix_append_cases hT with h1 | h1 | h1
    · left
      have hpre : (foreignSplit main).1 <+: main :=
        ⟨origPairs (foreignSplit main).2, horig⟩
      exact h1.trans hpre.isInfix
    · rcases rebuild_srcTok_infix rand N hpos hr ds hds (foreignSplit main).2 0 h1
        with ⟨p, hp, hinf⟩ | hle
      · left
        have h2 : p.2 <:+: origPairs (foreignSplit main).2 :=
          pair_text_infix_orig _ p hp
        have h3 : p.2 <:+: main := by
          rw [← horig]
          exact infix_append_left h2
        exact hinf.trans h3
      · exact Or.inr hle
    · exfalso
      rcases h1 with ⟨a, b, hab, ha, hb, -, hbPre⟩
      cases hp : (foreignSplit main).2 with
      | nil =>
        rw [hp, claimRebuild] at hbPre
        exact hb (List.prefix_nil.mp hbPre)
      | cons q ps' =>
        rw [hp, claimRebuild_cons_shape] at hbPre
        have hbh := prefix_head_eq hb hbPre
        rw [tok_shape ds] at hab
        exact span_bs_contra hab (bs_not_mem_rest hds) ha hbh

theorem citation_repair_key_bound_witness :
    fix_citations_in_work_content rand1 c3cexFull
      = replace_citations_in_content rand1 c3cexMain c3cexBib ++ c3cexBib :=
  (citation_repair_key_bound rand1 c3cexFull c3cexMain c3cexBib 1
    (by decide) (by decide) (Nat.le_refl 1)
    (fun _ => ⟨Nat.le_refl 1, Nat.le_refl 1⟩)).1

/-- C3 as stated is false: the final main text of this document still
references `source5` although its bibliography defines only `source1`. -/
theorem citation_repair_key_bound_counterexample :
    find_bibliography c3cexFull = some (c3cexMain, c3cexBib)
    ∧ extract_source_count_from_bibliography c3cexBib = 1
    ∧ replace_citations_in_content rand1 c3cexMain c3cexBib = c3cexMain
    ∧ srcCiteTokOf (numChars 5) <:+: replace_citations_in_content rand1 c3cexMain c3cexBib
    ∧ ¬ numVal (numChars 5) ≤ 1 := by
  refine ⟨by decide, by decide, by decide, ?_, by decide⟩
  have h : replace_citations_in_content rand1 c3cexMain c3cexBib = c3cexMain := by decide
  rw [h]
  exact ⟨"pre ".toList, " post\n".toList, by decide⟩

/-! ## Tag validation (C1) -/

theorem checkTags_balanced {ts : List LTag} (h : BalancedTags ts) :
    ∀ (rest : List LTag) (stack : List (List Char)),
      checkTags (ts ++ rest) stack = checkTags rest stack := by
  induction h with
  | nil => intro rest stack; rfl
  | wrap n hts ih =>
    intro rest stack
    simp only [List.cons_append, List.append_assoc, List.nil_append]
    rw [checkTags]
    rw [ih (LTag.endT n :: rest) (n :: stack)]
    simp [checkTags]
  | append ha hb iha ihb =>
    intro rest stack
    rw [List.append_assoc, iha, ihb]

/-- C1: `validate_latex_tags` (modelled from the spec) accepts exactly the
properly nested tag sequences and reports the first mismatch: a balanced
scan yields `(true, "")`; the spec's `\begin{figure}…\end{table}` example
fails with a message naming both `figure` and `table`; a closing tag with
an empty stack reports "closing tag without matching open"; at end of scan
the still-open names are all reported. -/
theorem validate_latex_tags_spec :
    (∀ content : List Char, BalancedTags (scanTags content) →
        validate_latex_tags content = (true, []))
    ∧ validate_latex_tags "\\begin\x7bfigure\x7d...\\end\x7btable\x7d".toList
        = (false, msgWrongClose "figure".toList "table".toList)
    ∧ (containsSub "figure".toList
          (validate_latex_tags "\\begin\x7bfigure\x7d...\\end\x7btable\x7d".toList).2 = true
      ∧ containsSub "table".toList
          (validate_latex_tags "\\begin\x7bfigure\x7d...\\end\x7btable\x7d".toList).2 = true)
    ∧ validate_latex_tags "...\\end\x7bfigure\x7d".toList
        = (false, msgCloseNoOpen "figure".toList)
    ∧ validate_latex_tags "\\begin\x7bfigure\x7d\\begin\x7bitemize\x7dx".toList
        = (false, msgUnclosed ["itemize".toList, "figure".toList])
    ∧ validate_latex_tags
        "\\begin\x7bfigure\x7d\\begin\x7bfigure\x7d...\\end\x7bfigure\x7d\\end\x7bfigure\x7d".toList
        = (true, []) := by
  refine ⟨?_, by decide, ⟨by decide, by decide⟩, by decide, by decide, by decide⟩
  intro content h
  have h2 := checkTags_balanced h [] []
  rw [List.append_nil] at h2
  unfold validate_latex_tags
  rw [h2]
  rfl

/-! ## Page-count target (C8) -/

/-- C8: `calculate_content_pages_for_target` returns the requested total
minus the service pages (1.0 title page plus 0.5 + 0.05·chapters table of
contents), floored at 1.0. -/
theorem calculate_content_pages_spec (total : ℤ) (n : ℕ) :
    1 ≤ calculate_content_pages_for_target total n
    ∧ calculate_content_pages_for_target total n
        = max 1 ((total : ℚ) - (1 + (1 / 2 + (n : ℚ) * (1 / 20))))
    ∧ ((1 : ℚ) + (1 / 2 + (n : ℚ) * (1 / 20)) + 1 ≤ (total : ℚ) →
        calculate_content_pages_for_target total n
          = (total : ℚ) - (1 + (1 / 2 + (n : ℚ) * (1 / 20)))) := by
  have he : calculate_content_pages_for_target total n
      = max 1 ((total : ℚ) - (1 + (1 / 2 + (n : ℚ) * (1 / 20)))) := rfl
  refine ⟨he ▸ le_max_left 1 _, he, fun h => ?_⟩
  rw [he, max_eq_right (by linarith)]

/-! ## Dollar escaping (C9) -/

/-- C9 fails on the code: on three backslashes followed by a dollar the
`\\$` → `\$` normalisation strips one backslash per application, so
`f (f x) ≠ f x`. -/
theorem smart_escape_dollars_not_idempotent :
    smart_escape_dollars (smart_escape_dollars "\\\\\\$".toList)
        ≠ smart_escape_dollars "\\\\\\$".toList
    ∧ smart_escape_dollars "\\\\\\$".toList = "\\\\$".toList
    ∧ smart_escape_dollars (smart_escape_dollars "\\\\\\$".toList) = "\\$".toList :=
  ⟨by decide, by decide, by decide⟩

/-! ## Citation repair without a bibliography heading (C10) -/

/-- C10: when no bibliography heading matches any of the three patterns,
`fix_citations_in_work_content` returns its input unchanged. -/
theorem fix_citations_no_bibliography (rand : Nat → Nat) (full : List Char)
    (h : find_bibliography full = none) :
    fix_citations_in_work_content rand full = full := by
  unfold fix_citations_in_work_content
  rw [h]

theorem fix_citations_no_bibliography_witness :
    fix_citations_in_work_content rand1 "intro \\cite\x7bfoo\x7d body".toList
      = "intro \\cite\x7bfoo\x7d body".toList :=
  fix_citations_no_bibliography rand1 _ (by decide)

/-! ## Per-chapter page allocation (C7) -/

theorem dictGet_dictSet_self (d : List (List Char × ℚ)) (k : List Char) (v : ℚ) :
    dictGet (dictSet d k v) k = some v := by
  induction d with
  | nil => simp [dictSet, dictGet]
  | cons p d' ih =>
    by_cases hk : p.1 = k
    · simp [dictSet, dictGet, hk]
    · simp [dictSet, dictGet, hk, ih]

theorem dictGet_dictSet_ne (d : List (List Char × ℚ)) (k : List Char) (v : ℚ)
    (k' : List Char) (h : k' ≠ k) : dictGet (dictSet d k v) k' = dictGet d k' := by
  have hne : ¬ k = k' := fun he => h he.symm
  induction d with
  | nil => simp [dictSet, dictGet, hne]
  | cons p d' ih =>
    by_cases hk : p.1 = k
    · by_cases hk' : p.1 = k'
      · exact absurd (hk' ▸ hk : k' = k) h
      · simp [dictSet, dictGet, hk, hk', hne]
    · by_cases hk' : p.1 = k'
      · simp [dictSet, dictGet, hk, hk', h]
      · simp [dictSet, dictGet, hk, hk', ih]

theorem ppc_foldl_sum_mains :
    ∀ (chapters : List Chapter) (d : List (List Char × ℚ)) (s : ℚ) (m : List Chapter),
      (chapters.foldl ppcStep (d, s, m)).2.1 = s + specialSum chapters
      ∧ (chapters.foldl ppcStep (d, s, m)).2.2 = m ++ mainsOf chapters := by
  intro chapters
  induction chapters with
  | nil => intro d s m; simp [specialSum, mainsOf]
  | cons ch chs ih =>
    intro d s m
    cases hf : findSpecial (pyLower ch.title) with
    | some p =>
      simp only [List.foldl_cons, ppcStep, hf]
      constructor
      · rw [(ih _ _ _).1]
        simp [specialSum, hf]
        ring
      · rw [(ih _ _ _).2]
        simp [mainsOf, hf]
    | none =>
      simp only [List.foldl_cons, ppcStep, hf]
      constructor
      · rw [(ih _ _ _).1]
        simp [specialSum, hf]
      · rw [(ih _ _ _).2]
        simp [mainsOf, hf]

theorem ppc_foldl_get (k : List Char) :
    ∀ (chapters : List Chapter) (d : List (List Char × ℚ)) (s : ℚ) (m : List Chapter),
      dictGet ((chapters.foldl ppcStep (d, s, m)).1) k
        = if (∃ ch ∈ chapters, ch.title = k) ∧ (findSpecial (pyLower k)).isSome = true
          then findSpecial (pyLower k)
          else dictGet d k := by
  intro chapters
  induction chapters with
  | nil => intro d s m; simp
  | cons ch chs ih =>
    intro d s m
    cases hf : findSpecial (pyLower ch.title) with
    | some p =>
      simp only [List.foldl_cons, ppcStep, hf]
      rw [ih]
      by_cases hk : ch.title = k
      · subst hk
        have hSome : (findSpecial (pyLower ch.title)).isSome = true := by
          rw [hf]; rfl
        by_cases hex : ∃ ch' ∈ chs, ch'.title = ch.title
        · rw [if_pos ⟨hex, hSome⟩,
            if_pos ⟨⟨ch, List.mem_cons_self _ _, rfl⟩, hSome⟩]
        · rw [if_neg (fun hc => hex hc.1),
            if_pos ⟨⟨ch, List.mem_cons_self _ _, rfl⟩, hSome⟩]
          rw [dictGet_dictSet_self, hf]
      · have hd : dictGet (dictSet d ch.title p) k = dictGet d k :=
          dictGet_dictSet_ne d ch.title p k (fun he => hk he.symm)
        rw [hd]
        have hiff : ((∃ ch' ∈ chs, ch'.title = k)
              ∧ (findSpecial (pyLower k)).isSome = true)
            ↔ ((∃ ch' ∈ ch :: chs, ch'.title = k)
              ∧ (findSpecial (pyLower k)).isSome = true) := by
          constructor
          · rintro ⟨⟨c, hc, rfl⟩, h2⟩
            exact ⟨⟨c, List.mem_cons_of_mem _ hc, rfl⟩, h2⟩
          · rintro ⟨⟨c, hc, rfl⟩, h2⟩
            rcases List.mem_cons.mp hc with rfl | hc
            · exact absurd rfl hk
            · exact ⟨⟨c, hc, rfl⟩, h2⟩
        rw [if_congr hiff rfl rfl]
    | none =>
      simp only [List.foldl_cons, ppcStep, hf]
      rw [ih]
      by_cases hk : ch.title = k
      · subst hk
        have hNone : (findSpecial (pyLower ch.title)).isSome = false := by
          rw [hf]; rfl
        rw [if_neg (fun hc => by rw [hNone] at hc; exact Bool.false_ne_true hc.2),
          if_neg (fun hc => by rw [hNone] at hc; exact Bool.false_ne_true hc.2)]
      · have hiff : ((∃ ch' ∈ chs, ch'.title = k)
              ∧ (findSpecial (pyLower k)).isSome = true)
            ↔ ((∃ ch' ∈ ch :: chs, ch'.title = k)
              ∧ (findSpecial (pyLower k)).isSome = true) := by
          constructor
          · rintro ⟨⟨c, hc, rfl⟩, h2⟩
            exact ⟨⟨c, List.mem_cons_of_mem _ hc, rfl⟩, h2⟩
          · rintro ⟨⟨c, hc, rfl⟩, h2⟩
            rcases List.mem_cons.mp hc with rfl | hc
            · exact absurd rfl hk
            · exact ⟨⟨c, hc, rfl⟩, h2⟩
        rw [if_congr hiff rfl rfl]

theorem ppc_assign_get (per : ℚ) (k : List Char) :
    ∀ (mains : List Chapter) (d : List (List Char × ℚ)),
      dictGet (mains.foldl (ppcAssign per) d) k
        = if ∃ ch ∈ mains, ch.title = k then some per else dictGet d k := by
  intro mains
  induction mains with
  | nil => intro d; simp
  | cons ch chs ih =>
    intro d
    simp only [List.foldl_cons, ppcAssign]
    rw [ih]
    by_cases hk : ch.title = k
    · subst hk
      by_cases hex : ∃ ch' ∈ chs, ch'.title = ch.title
      · rw [if_pos hex, if_pos ⟨ch, List.mem_cons_self _ _, rfl⟩]
      · rw [if_neg hex, if_pos ⟨ch, List.mem_cons_self _ _, rfl⟩]
        exact dictGet_dictSet_self d ch.title per
    · have hd : dictGet (dictSet d ch.title per) k = dictGet d k :=
        dictGet_dictSet_ne d ch.title per k (fun he => hk he.symm)
      rw [hd]
      have hiff : (∃ ch' ∈ chs, ch'.title = k)
          ↔ (∃ ch' ∈ ch :: chs, ch'.title = k) := by
        constructor
        · rintro ⟨c, hc, rfl⟩
          exact ⟨c, List.mem_cons_of_mem _ hc, rfl⟩
        · rintro ⟨c, hc, rfl⟩
          rcases List.mem_cons.mp hc with rfl | hc
          · exact absurd rfl hk
          · exact ⟨c, hc, rfl⟩
      rw [if_congr hiff rfl rfl]

/-- Full characterisation of `calculate_pages_per_chapter`'s mapping. -/
theorem calculate_ppc_get (total : ℚ) (chapters : List Chapter) (k : List Char)
    (hne : chapters ≠ []) :
    dictGet (calculate_pages_per_chapter total chapters) k
      = if (∃ ch ∈ chapters, ch.title = k)
            ∧ (findSpecial (pyLower k)).isSome = true
        then findSpecial (pyLower k)
        else if (∃ ch ∈ mainsOf chapters, ch.title = k)
            ∧ 0 < total - specialSum chapters
          then some ((total - specialSum chapters) / ((mainsOf chapters).length : ℚ))
        else none := by
  unfold calculate_pages_per_chapter
  rw [if_neg (by simpa using hne)]
  have h1 := (ppc_foldl_sum_mains chapters [] 0 []).1
  have h2 := (ppc_foldl_sum_mains chapters [] 0 []).2
  rw [zero_add] at h1
  rw [List.nil_append] at h2
  have hget := ppc_foldl_get k chapters [] 0 []
  simp only [dictGet] at hget
  by_cases hcond : (!(chapters.foldl ppcStep ([], 0, [])).2.2.isEmpty) = true
      ∧ total - (chapters.foldl ppcStep ([], 0, [])).2.1 > 0
  · rw [if_pos hcond]
    rw [ppc_assign_get]
    rw [h1, h2]
    by_cases hmem : ∃ ch ∈ mainsOf chapters, ch.title = k
    · rw [if_pos hmem]
      have hrem : 0 < total - specialSum chapters := by
        have := hcond.2
        rw [h1] at this
        linarith
      rcases hmem with ⟨c, hc, rfl⟩
      have hnone : findSpecial (pyLower c.title) = none := by
        simpa [mainsOf, Option.isNone_iff_eq_none] using List.of_mem_filter hc
      have hcnone : (findSpecial (pyLower c.title)).isSome = false := by
        rw [hnone]; rfl
      rw [if_neg (fun hcc => by rw [hcnone] at hcc; exact Bool.false_ne_true hcc.2)]
      rw [if_pos ⟨⟨c, hc, rfl⟩, hrem⟩]
    · rw [if_neg hmem, hget]
      by_cases hc1 : (∃ ch ∈ chapters, ch.title = k)
          ∧ (findSpecial (pyLower k)).isSome = true
      · rw [if_pos hc1, if_pos hc1]
      · rw [if_neg hc1, if_neg hc1]
        rw [if_neg (fun hcc => hmem hcc.1)]
  · rw [if_neg hcond, hget]
    by_cases hc1 : (∃ ch ∈ chapters, ch.title = k)
        ∧ (findSpecial (pyLower k)).isSome = true
    · rw [if_pos hc1, if_pos hc1]
    · rw [if_neg hc1, if_neg hc1]
      rw [if_neg]
      rintro ⟨⟨c, hc, rfl⟩, hrem⟩
      apply hcond
      constructor
      · rw [h2, Bool.not_eq_true']
        cases hemp : (mainsOf chapters).isEmpty with
        | false => rfl
        | true =>
          rw [List.isEmpty_iff] at hemp
          rw [hemp] at hc
          simp at hc
      · rw [h1]
        linarith

theorem findSpecial_intro : findSpecial (pyLower "Введение".toList) = some (3 / 2) := rfl

theorem findSpecial_concl : findSpecial (pyLower "Заключение".toList) = some (3 / 2) := rfl

theorem findSpecial_bib : findSpecial (pyLower "Список литературы".toList) = some (1 / 2) := rfl

theorem findSpecial_main1 : findSpecial (pyLower "Основная глава".toList) = none := rfl

theorem findSpecial_main2 : findSpecial (pyLower "Вторая глава".toList) = none := rfl

theorem findSpecial_main3 : findSpecial (pyLower "Основы темы".toList) = none := rfl

theorem specialSum_c7Example : specialSum c7Example = 2 := by
  simp only [specialSum, c7Example, List.map_cons, List.map_nil,
    findSpecial_intro, findSpecial_bib, findSpecial_main1, findSpecial_main2,
    Option.getD_some, Option.getD_none, List.sum_cons, List.sum_nil]
  norm_num

theorem mainsOf_c7Example :
    mainsOf c7Example
      = [⟨"Основная глава".toList, []⟩, ⟨"Вторая глава".toList, []⟩] := by
  simp only [mainsOf, c7Example, List.filter_cons, List.filter_nil,
    findSpecial_intro, findSpecial_bib, findSpecial_main1, findSpecial_main2,
    Option.isNone_some, Option.isNone_none]
  rfl

theorem specialSum_c7Zero : specialSum c7ZeroExample = 3 := by
  simp only [specialSum, c7ZeroExample, List.map_cons, List.map_nil,
    findSpecial_intro, findSpecial_concl, findSpecial_main3,
    Option.getD_some, Option.getD_none, List.sum_cons, List.sum_nil]
  norm_num

/-- C7 (amended): every chapter whose lower-cased title contains a special
keyword gets its fixed allocation (1.5 for introduction/conclusion, 0.5 for
bibliography keywords); when pages remain, the other chapters split them
evenly; the spec's 20-page example allocates 1.5/0.5/9.0/9.0; when the
special chapters consume all pages the remaining chapters are absent from
the returned mapping (rather than mapped to zero). -/
theorem calculate_pages_per_chapter_spec (total : ℚ) (chapters : List Chapter) :
    (∀ ch ∈ chapters, ∀ p : ℚ, findSpecial (pyLower ch.title) = some p →
        dictGet (calculate_pages_per_chapter total chapters) ch.title = some p)
    ∧ (∀ ch ∈ chapters, findSpecial (pyLower ch.title) = none →
        0 < total - specialSum chapters →
        dictGet (calculate_pages_per_chapter total chapters) ch.title
          = some ((total - specialSum chapters) / ((mainsOf chapters).length : ℚ)))
    ∧ (∀ ch ∈ chapters, findSpecial (pyLower ch.title) = none →
        total - specialSum chapters ≤ 0 →
        dictGet (calculate_pages_per_chapter total chapters) ch.title = none)
    ∧ dictGet (calculate_pages_per_chapter 20 c7Example) "Введение".toList
        = some (3 / 2)
    ∧ dictGet (calculate_pages_per_chapter 20 c7Example) "Список литературы".toList
        = some (1 / 2)
    ∧ dictGet (calculate_pages_per_chapter 20 c7Example) "Основная глава".toList
        = some 9
    ∧ dictGet (calculate_pages_per_chapter 20 c7Example) "Вторая глава".toList
        = some 9 := by
  have hgen := calculate_ppc_get total chapters
  refine ⟨?_, ?_, ?_, ?_, ?_, ?_, ?_⟩
  · intro ch hch p hp
    have hne : chapters ≠ [] := by rintro rfl; simp at hch
    rw [hgen ch.title hne,
      if_pos ⟨⟨ch, hch, rfl⟩, by rw [hp]; rfl⟩, hp]
  · intro ch hch hnone hrem
    have hne : chapters ≠ [] := by rintro rfl; simp at hch
    rw [hgen ch.title hne]
    rw [if_neg (fun hc => by rw [hnone] at hc; exact Bool.false_ne_true hc.2)]
    have hmem : ch ∈ mainsOf chapters :=
      List.mem_filter.mpr ⟨hch, by rw [hnone]; rfl⟩
    rw [if_pos ⟨⟨ch, hmem, rfl⟩, hrem⟩]
  · intro ch hch hnone hrem
    have hne : chapters ≠ [] := by rintro rfl; simp at hch
    rw [hgen ch.title hne]
    rw [if_neg (fun hc => by rw [hnone] at hc; exact Bool.false_ne_true hc.2)]
    rw [if_neg (fun hc => by linarith [hc.2])]
  · rw [calculate_ppc_get 20 c7Example _ (by simp [c7Example]),
      if_pos ⟨⟨⟨"Введение".toList, []⟩, by simp [c7Example], rfl⟩,
        by rw [findSpecial_intro]; rfl⟩, findSpecial_intro]
  · rw [calculate_ppc_get 20 c7Example _ (by simp [c7Example]),
      if_pos ⟨⟨⟨"Список литературы".toList, []⟩, by simp [c7Example], rfl⟩,
        by rw [findSpecial_bib]; rfl⟩, findSpecial_bib]
  · rw [calculate_ppc_get 20 c7Example _ (by simp [c7Example]),
      if_neg (fun hc => by
        rw [show pyLower "Основная глава".toList
            = pyLower "Основная глава".toList from rfl, findSpecial_main1] at hc
        exact Bool.false_ne_true hc.2),
      if_pos ⟨⟨⟨"Основная глава".toList, []⟩,
        by rw [mainsOf_c7Example]; simp, rfl⟩,
        by rw [specialSum_c7Example]; norm_num⟩,
      specialSum_c7Example, mainsOf_c7Example]
    norm_num
  · rw [calculate_ppc_get 20 c7Example _ (by simp [c7Example]),
      if_neg (fun hc => by
        rw [findSpecial_main2] at hc
        exact Bool.false_ne_true hc.2),
      if_pos ⟨⟨⟨"Вторая глава".toList, []⟩,
        by rw [mainsOf_c7Example]; simp, rfl⟩,
        by rw [specialSum_c7Example]; norm_num⟩,
      specialSum_c7Example, mainsOf_c7Example]
    norm_num

/-- C7's zero-allocation clause is false: with three pages fully consumed
by the introduction and conclusion, the remaining chapter is not mapped to
zero — it is absent from the mapping. -/
theorem calculate_pages_per_chapter_zero_counterexample :
    dictGet (calculate_pages_per_chapter 3 c7ZeroExample) "Основы темы".toList = none
    ∧ ¬ dictGet (calculate_pages_per_chapter 3 c7ZeroExample) "Основы темы".toList
        = some 0 := by
  have hnone : dictGet (calculate_pages_per_chapter 3 c7ZeroExample)
      "Основы темы".toList = none := by
    rw [calculate_ppc_get 3 c7ZeroExample _ (by simp [c7ZeroExample]),
      if_neg (fun hc => by
        rw [findSpecial_main3] at hc
        exact Bool.false_ne_true hc.2),
      if_neg (fun hc => by
        have := hc.2
        rw [specialSum_c7Zero] at this
        linarith)]
  exact ⟨hnone, by rw [hnone]; simp⟩

/-! ## Chapter-loop early exit (C4) -/

theorem generate_main_chapters_join (ask : Nat → List Char → List Char)
    (theme wt : List Char) (pmap : List (List Char × ℚ)) (ctp : ℚ) :
    ∀ (chapters : List Chapter) (k : Nat) (total : ℚ),
      (generate_main_chapters ask theme wt pmap ctp k total chapters).1
        = joinNewpage (mainChaptersTrace ask theme wt pmap ctp k total chapters) := by
  intro chapters
  induction chapters with
  | nil => intro k total; simp [generate_main_chapters, mainChaptersTrace, joinNewpage]
  | cons ch rest ih =>
    intro k total
    simp only [generate_main_chapters, mainChaptersTrace]
    by_cases hc : ctp * (23 / 20)
        ≤ total + count_pages_in_text (chapterStep ask theme wt pmap k ch).1
    · rw [if_pos hc, if_pos hc]
      simp [joinNewpage]
    · rw [if_neg hc, if_neg hc]
      rw [joinNewpage, ih]

theorem mainChaptersTrace_spec (ask : Nat → List Char → List Char)
    (theme wt : List Char) (pmap : List (List Char × ℚ)) (ctp : ℚ) :
    ∀ (chapters : List Chapter) (k : Nat) (total : ℚ),
      (mainChaptersTrace ask theme wt pmap ctp k total chapters).length
          ≤ chapters.length
      ∧ (∀ i, i + 1 < (mainChaptersTrace ask theme wt pmap ctp k total chapters).length →
          total + sumPages ((mainChaptersTrace ask theme wt pmap ctp k total chapters).take (i + 1))
            < ctp * (23 / 20))
      ∧ ((mainChaptersTrace ask theme wt pmap ctp k total chapters).length
            < chapters.length →
          ctp * (23 / 20)
            ≤ total + sumPages (mainChaptersTrace ask theme wt pmap ctp k total chapters)) := by
  intro chapters
  induction chapters with
  | nil => intro k total; simp [mainChaptersTrace]
  | cons ch rest ih =>
    intro k total
    simp only [mainChaptersTrace]
    by_cases hc : ctp * (23 / 20)
        ≤ total + count_pages_in_text (chapterStep ask theme wt pmap k ch).1
    · rw [if_pos hc]
      refine ⟨by simp, ?_, ?_⟩
      · intro i hi
        simp at hi
      · intro _
        simpa [sumPages] using hc
    · rw [if_neg hc]
      obtain ⟨ihlen, ihmid, ihlast⟩ :=
        ih (chapterStep ask theme wt pmap k ch).2
          (total + count_pages_in_text (chapterStep ask theme wt pmap k ch).1)
      refine ⟨by simpa using Nat.succ_le_succ ihlen, ?_, ?_⟩
      · intro i hi
        cases i with
        | zero =>
          simp only [List.take_succ_cons, List.take_zero, sumPages, List.map_cons,
            List.map_nil, List.sum_cons, List.sum_nil]
          have := lt_of_not_le hc
          linarith
        | succ i' =>
          simp only [List.length_cons, Nat.add_lt_add_iff_right] at hi
          have h2 := ihmid i' hi
          simp only [List.take_succ_cons, sumPages, List.map_cons, List.sum_cons] at h2 ⊢
          linarith
      · intro hlen
        simp only [List.length_cons, Nat.add_lt_add_iff_right] at hlen
        have h2 := ihlast hlen
        simp only [sumPages, List.map_cons, List.sum_cons] at h2 ⊢
        linarith

/-- C4: the chapter loop appends the `\newpage`-separated contents of
exactly the chapters in its trace; every chapter after the first is only
generated while the accumulated page total is strictly below
`content_target_pages × 1.15`; and the loop drops the remaining chapters
exactly when the generated prefix has reached that ceiling. -/
theorem main_chapters_early_exit (ask : Nat → List Char → List Char)
    (theme wt : List Char) (pmap : List (List Char × ℚ)) (ctp : ℚ)
    (chapters : List Chapter) (k : Nat) :
    (generate_main_chapters ask theme wt pmap ctp k 0 chapters).1
        = joinNewpage (mainChaptersTrace ask theme wt pmap ctp k 0 chapters)
    ∧ (mainChaptersTrace ask theme wt pmap ctp k 0 chapters).length
        ≤ chapters.length
    ∧ (∀ i, i + 1 < (mainChaptersTrace ask theme wt pmap ctp k 0 chapters).length →
        sumPages ((mainChaptersTrace ask theme wt pmap ctp k 0 chapters).take (i + 1))
          < ctp * (23 / 20))
    ∧ ((mainChaptersTrace ask theme wt pmap ctp k 0 chapters).length
          < chapters.length →
        ctp * (23 / 20)
          ≤ sumPages (mainChaptersTrace ask theme wt pmap ctp k 0 chapters)) := by
  obtain ⟨hlen, hmid, hlast⟩ := mainChaptersTrace_spec ask theme wt pmap ctp chapters k 0
  refine ⟨generate_main_chapters_join ask theme wt pmap ctp chapters k 0, hlen,
    fun i hi => ?_, fun h => ?_⟩
  · have := hmid i hi
    linarith
  · have := hlast h
    linarith

/-! ## Empty-plan fallback (C5) -/

/-- C5: when the plan parses to no chapters, the stepwise generator returns
exactly what the legacy full-document generator returns on the identical
arguments (same LLM oracle, same draw oracle, same call counter). -/
theorem stepwise_empty_plan_fallback (ask : Nat → List Char → List Char)
    (rand : Nat → Nat) (k : Nat) (theme : List Char) (pages : ℤ)
    (workType planText : List Char)
    (h : parse_work_plan planText = []) :
    generate_work_content_stepwise ask rand k theme pages workType planText
      = generate_full_work_content_legacy ask rand k theme pages workType := by
  unfold generate_work_content_stepwise
  rw [h]
  rfl

theorem stepwise_empty_plan_fallback_witness :
    generate_work_content_stepwise (fun _ _ => []) rand1 0
        "тема".toList 10 "курсовая".toList []
      = generate_full_work_content_legacy (fun _ _ => []) rand1 0
        "тема".toList 10 "курсовая".toList :=
  stepwise_empty_plan_fallback (fun _ _ => []) rand1 0
    "тема".toList 10 "курсовая".toList [] (by decide)

end Scribot
